import Mathlib

/-!
Verification of the triangular-arbitrage detector and executor
(`arbitrage_detector.py`, `action_executor.py`).

Shallow embedding conventions:
* Python `Decimal` values are modelled as exact rationals (`ℚ`); the spec
  (§3, §9 "Decimal arithmetic") states all price/amount arithmetic is exact
  base-10 rational arithmetic.
* `Decimal.quantize(step, ROUND_DOWN)` is modelled as rounding toward zero
  to an integer multiple of `step`; this is exact for the steps the exchange
  uses (`10^(-k)` decimals).
* A raised Python exception (division by zero, the "Bad calculation!" and
  "Critical calculation error" raises) is modelled as `none`: the function
  produces no result in those runs.
* `while` loops are modelled by structural recursion on an explicit fuel
  argument; the fuel passed by the wrappers is large enough for every
  terminating run of the source loop (the loops decrement a rational by a
  fixed positive step until it drops below a bound).
-/

namespace TriArb

/-- One order-book level / ladder: list of `(price, volume)` pairs. -/
abbrev Ladder := List (ℚ × ℚ)

/-- Per-symbol order-size requirements (`ArbitrageDetector._symbol_reqs`). -/
structure SymbolReqs where
  min_amount : ℚ
  max_amount : ℚ
  amount_step : ℚ
  min_total : ℚ
  deriving Repr, DecidableEq

/-- Detector construction parameters and symbol-requirement lookup
(`ArbitrageDetector.__init__`).  `min_age` is already in milliseconds. -/
structure DetectorCfg where
  fee : ℚ
  min_profit : ℚ
  min_depth : ℕ
  min_age : ℤ
  reduce_factor : ℚ
  reqs : String → Option SymbolReqs

/-- Rounding toward zero (Python `ROUND_DOWN`). -/
def truncQ (q : ℚ) : ℤ := if q < 0 then ⌈q⌉ else ⌊q⌋

/-- `amount.quantize(step, ROUND_DOWN)`: round `amount` toward zero to an
integer multiple of `step` (exact for the exchange's power-of-ten steps). -/
def quantizeDown (amount step : ℚ) : ℚ := (truncQ (amount / step)) * step

/-- The final check of each `normalize_amounts` entry:
`amount * price >= min_total`, else `None`. -/
def notionalCheck (r : SymbolReqs) (price a : ℚ) : Option ℚ :=
  if a * price < r.min_total then none else some a

/-- The body of `ArbitrageDetector.normalize_amounts` for a single
`amount_type ↦ symbol` entry: enforce `min_amount ≤ a ≤ max_amount`, snap to
`amount_step`, then require `a * price ≥ min_total` (`notionalCheck`). -/
def normalizeOne (r : SymbolReqs) (price amount : ℚ) : Option ℚ :=
  if amount < r.min_amount then none
  else notionalCheck r price
    (if amount > r.max_amount then r.max_amount
     else quantizeDown amount r.amount_step)

/-- The final integrity check of
`ArbitrageDetector.calculate_amounts_on_price_level`; the `none` branch is
the `raise Exception('Bad calculation!')`. -/
def integrityCheck (direction : String) (yz xz xy : ℚ × ℚ)
    (ay axb axs : ℚ) : Option (ℚ × ℚ × ℚ) :=
  if ay > yz.2 ∨ ((axb > xz.2 ∨ axs > xy.2) ∧ direction = "sell buy sell")
      ∨ ((axs > xz.2 ∨ axb > xy.2) ∧ direction = "buy sell buy")
  then none
  else some (ay, axb, axs)

/-- `ArbitrageDetector.calculate_amounts_on_price_level`.  Each price
level is a `(price, volume)` pair; the result triple is
`(amount_y, amount_x_buy, amount_x_sell)`.  Python's mutating
reassignments are written out per branch; divisions that would raise
(`fee = 1`, or a zero X/Y price in the Y-cap branch) are modelled as
`none`, like the final `Bad calculation!` raise. -/
def calculate_amounts_on_price_level (fee : ℚ) (direction : String)
    (yz xz xy : ℚ × ℚ) : Option (ℚ × ℚ × ℚ) :=
  if fee = 1 then none
  else if direction = "sell buy sell" then
    if min xz.2 xy.2 / (1 - fee) > xz.2 then
      -- can't buy enough X on X/Z: amount_x_buy = xz.2,
      -- amount_x_sell = xz.2 * (1 - fee)
      if xz.2 * (1 - fee) * xy.1 * (1 - fee) > yz.2 then
        -- can't trade that much Y on Y/Z: recompute both X amounts
        if xy.1 = 0 then none
        else integrityCheck direction yz xz xy yz.2
          (yz.2 / xy.1 / (1 - fee) / (1 - fee)) (yz.2 / xy.1 / (1 - fee))
      else integrityCheck direction yz xz xy
        (xz.2 * (1 - fee) * xy.1 * (1 - fee)) xz.2 (xz.2 * (1 - fee))
    else
      if min xz.2 xy.2 * xy.1 * (1 - fee) > yz.2 then
        if xy.1 = 0 then none
        else integrityCheck direction yz xz xy yz.2
          (yz.2 / xy.1 / (1 - fee) / (1 - fee)) (yz.2 / xy.1 / (1 - fee))
      else integrityCheck direction yz xz xy
        (min xz.2 xy.2 * xy.1 * (1 - fee)) (min xz.2 xy.2 / (1 - fee))
        (min xz.2 xy.2)
  else if direction = "buy sell buy" then
    if min xz.2 xy.2 / (1 - fee) > xy.2 then
      -- can't buy enough X on X/Y: amount_x_buy = xy.2,
      -- amount_x_sell = xy.2 * (1 - fee)
      if xy.2 * xy.1 / (1 - fee) > yz.2 then
        if xy.1 = 0 then none
        else integrityCheck direction yz xz xy yz.2
          (yz.2 * (1 - fee) / xy.1) (yz.2 * (1 - fee) / xy.1 * (1 - fee))
      else integrityCheck direction yz xz xy
        (xy.2 * xy.1 / (1 - fee)) xy.2 (xy.2 * (1 - fee))
    else
      if min xz.2 xy.2 / (1 - fee) * xy.1 / (1 - fee) > yz.2 then
        if xy.1 = 0 then none
        else integrityCheck direction yz xz xy yz.2
          (yz.2 * (1 - fee) / xy.1) (yz.2 * (1 - fee) / xy.1 * (1 - fee))
      else integrityCheck direction yz xz xy
        (min xz.2 xy.2 / (1 - fee) * xy.1 / (1 - fee))
        (min xz.2 xy.2 / (1 - fee)) (min xz.2 xy.2)
  else
    -- unknown direction: only the Y/Z volume cap applies
    if min xz.2 xy.2 * xy.1 > yz.2 then
      integrityCheck direction yz xz xy yz.2
        (min xz.2 xy.2 / (1 - fee)) (min xz.2 xy.2)
    else
      integrityCheck direction yz xz xy (min xz.2 xy.2 * xy.1)
        (min xz.2 xy.2 / (1 - fee)) (min xz.2 xy.2)

/-- Loop body of `ArbitrageDetector.calculate_counter_amount`: walk the
ladder accumulating `price * trade` until `amount_left` is exhausted.
The source's final `amount_left < 0` raise is unreachable: `amount_left`
only ever becomes `0` (break) or stays the positive remainder. -/
def counterGo (counter amount_left : ℚ) : Ladder → ℚ
  | [] => counter
  | (level_price, level_amount) :: rest =>
    if amount_left > level_amount then
      -- trade_amount = level_amount; the remainder is positive, loop on
      counterGo (counter + level_price * level_amount)
        (amount_left - level_amount) rest
    else
      -- trade_amount = amount_left; the remainder is 0, the loop breaks
      counter + level_price * amount_left

/-- `ArbitrageDetector.calculate_counter_amount`. -/
def calculate_counter_amount (amount : ℚ) (orderbook : Ladder) : ℚ :=
  counterGo 0 amount orderbook

/-- One `while 1:` reduction loop inside
`normalize_amounts_and_recalculate`: while the profit of the current value
is negative, decrement by `step`; give up (`None`) once the value falls
below `minA`.  `fuel` bounds the recursion; the wrappers pass enough fuel
for every terminating run of the source loop. -/
def stepDownLoop (step minA : ℚ) (profitOf : ℚ → ℚ) : ℕ → ℚ → Option ℚ
  | 0, _ => none
  | fuel + 1, a =>
    if 0 ≤ profitOf a then some a
    else if a - step < minA then none
    else stepDownLoop step minA profitOf fuel (a - step)

/-- Fuel sufficient for `stepDownLoop` started at `a`: one iteration per
decrement until the value passes below `minA`, plus one. -/
def loopFuel (a minA step : ℚ) : ℕ := (((a - minA) / step).ceil).toNat + 1

/-- Raw arbitrage amounts dict `{y, x_buy, x_sell, z_spend, z_profit}`. -/
structure Amounts where
  y : ℚ
  x_buy : ℚ
  x_sell : ℚ
  z_spend : ℚ
  z_profit : ℚ
  deriving Repr, DecidableEq

/-- `ArbitrageDetector.limit_amounts`: multiply every amount by the factor. -/
def limit_amounts (a : Amounts) (reduce_factor : ℚ) : Amounts :=
  ⟨a.y * reduce_factor, a.x_buy * reduce_factor, a.x_sell * reduce_factor,
   a.z_spend * reduce_factor, a.z_profit * reduce_factor⟩

/-- Result dict of `normalize_amounts_and_recalculate`. -/
structure NormResult where
  y : ℚ
  x_buy : ℚ
  x_sell : ℚ
  x_profit : ℚ
  y_profit : ℚ
  z_spend : ℚ
  z_profit : ℚ
  profit_rel : ℚ
  deriving Repr, DecidableEq

/-- `ArbitrageDetector.normalize_amounts_and_recalculate`.
Takes the three symbols `(yz, xz, xy)`, the direction string, the raw
amounts, the three marginal prices and the three ladder snapshots.
The symbol-requirement lookups mirror `self._symbol_reqs[...]`; a missing
symbol makes `normalize_amounts` fail (`None`).  The final
`z_profit / z_spend` raises in Python when `z_spend == 0`; that run is
modelled as `none`. -/
def normalize_amounts_and_recalculate
    (cfg : DetectorCfg) (yzS xzS xyS : String) (direction : String)
    (a : Amounts) (pyz pxz pxy : ℚ)
    (obyz obxz obxy : Ladder) : Option NormResult :=
  match cfg.reqs yzS, cfg.reqs xzS, cfg.reqs xyS with
  | some ryz, some rxz, some rxy =>
    if direction = "sell buy sell" then
      -- normalize_amounts(amounts, {'y': yz, 'x_buy': xz, 'x_sell': xy}, prices)
      match normalizeOne ryz pyz a.y, normalizeOne rxz pxz a.x_buy,
            normalizeOne rxy pxy a.x_sell with
      | some y0, some xb, some xs0 =>
        -- make sure x_profit >= 0
        match stepDownLoop rxy.amount_step rxy.min_amount
            (fun v => xb * (1 - cfg.fee) - v)
            (loopFuel xs0 rxy.min_amount rxy.amount_step) xs0 with
        | none => none
        | some xs =>
          let x_profit := xb * (1 - cfg.fee) - xs
          -- make sure y_profit >= 0
          let y_got := calculate_counter_amount xs obxy * (1 - cfg.fee)
          match stepDownLoop ryz.amount_step ryz.min_amount
              (fun v => y_got - v)
              (loopFuel y0 ryz.min_amount ryz.amount_step) y0 with
          | none => none
          | some y =>
            let y_profit := y_got - y
            -- recalculate z_spend and z_profit with new amounts
            let z_got := calculate_counter_amount y obyz * (1 - cfg.fee)
            let z_spend := calculate_counter_amount xb obxz
            let z_profit := z_got - z_spend
            if z_spend = 0 then none
            else
              let profit_rel := z_profit / z_spend
              if profit_rel < cfg.min_profit then none
              else some ⟨y, xb, xs, x_profit, y_profit, z_spend, z_profit, profit_rel⟩
      | _, _, _ => none
    else if direction = "buy sell buy" then
      -- normalize_amounts(amounts, {'y': yz, 'x_sell': xz, 'x_buy': xy}, prices)
      match normalizeOne ryz pyz a.y, normalizeOne rxz pxz a.x_sell,
            normalizeOne rxy pxy a.x_buy with
      | some y, some xs0, some xb0 =>
        -- make sure y_profit >= 0
        let y_got := y * (1 - cfg.fee)
        match stepDownLoop rxy.amount_step rxy.min_amount
            (fun v => y_got - calculate_counter_amount v obxy)
            (loopFuel xb0 rxy.min_amount rxy.amount_step) xb0 with
        | none => none
        | some xb =>
          let y_profit := y_got - calculate_counter_amount xb obxy
          -- make sure x_profit >= 0
          match stepDownLoop rxz.amount_step rxz.min_amount
              (fun v => xb * (1 - cfg.fee) - v)
              (loopFuel xs0 rxz.min_amount rxz.amount_step) xs0 with
          | none => none
          | some xs =>
            let x_profit := xb * (1 - cfg.fee) - xs
            -- recalculate z_spend and z_profit with new amounts
            let z_got := calculate_counter_amount xs obxz * (1 - cfg.fee)
            let z_spend := calculate_counter_amount y obyz
            let z_profit := z_got - z_spend
            if z_spend = 0 then none
            else
              let profit_rel := z_profit / z_spend
              if profit_rel < cfg.min_profit then none
              else some ⟨y, xb, xs, x_profit, y_profit, z_spend, z_profit, profit_rel⟩
      | _, _, _ => none
    else none
  | _, _, _ => none

/-- Order-size compliance of one normalised amount with respect to its
symbol's requirements: within `[min_amount, max_amount]` and an integer
multiple of `amount_step`. -/
def amountOk (r : SymbolReqs) (v : ℚ) : Prop :=
  r.min_amount ≤ v ∧ v ≤ r.max_amount ∧ ∃ k : ℤ, v = k * r.amount_step

/-- A ladder whose prices and volumes are all positive. -/
def posLadder (ob : Ladder) : Prop := ∀ pv ∈ ob, 0 < pv.1 ∧ 0 < pv.2

/-- Concrete symbol requirements used by the `C1` counterexample: the
`max_amount` of the `XZ` symbol is not a multiple of its `amount_step`, and
the `YZ` symbol has a `min_total` that the profit-restoring step-downs can
fall below. -/
def c1reqs : String → Option SymbolReqs := fun s =>
  if s = "XZ" then some ⟨1, 5/2, 1, 0⟩
  else if s = "YZ" then some ⟨1, 100, 1, 3⟩
  else some ⟨1, 100, 1, 1⟩

/-- Detector configuration of the `C1` counterexample (zero fee, zero
minimum profit). -/
def c1cfg : DetectorCfg := ⟨0, 0, 0, 0, 1, c1reqs⟩

/-- Symbol requirements with negative `min_amount` and `min_total`
(not excluded by claim `C2`), used by the `C2` counterexample. -/
def c2reqs : String → Option SymbolReqs := fun _ => some ⟨-10, 100, 1, -1000⟩

/-- Detector configuration of the `C2` counterexample. -/
def c2cfg : DetectorCfg := ⟨0, 0, 0, 0, 1, c2reqs⟩

/-- Benign symbol requirements (positive, step-aligned) for the witnesses. -/
def okReqs : SymbolReqs := ⟨1, 100, 1, 1⟩

/-- Detector configuration for the witnesses: zero fee, zero minimum
profit, all symbols subject to `okReqs`. -/
def okCfg : DetectorCfg := ⟨0, 0, 0, 0, 1, fun _ => some okReqs⟩

/-- The `normalize_amounts_and_recalculate` result of the `C1`
counterexample run. -/
def c1res : NormResult := ⟨2, 5/2, 2, 1/2, 0, 5/2, 3/2, 3/5⟩

/-- The `normalize_amounts_and_recalculate` result of the `C2`
counterexample run. -/
def c2res : NormResult := ⟨-4, -4, -4, 0, 0, -4, -4, 1⟩

/-- The `normalize_amounts_and_recalculate` result of the witness run on
`okCfg`. -/
def okRes : NormResult := ⟨2, 2, 2, 0, 0, 2, 0, 0⟩

/-- Description of a successful `"sell buy sell"` run of
`normalize_amounts_and_recalculate`: the three snapped amounts, the two
profit-restoring loops, the nonzero `z_spend` and the final profit gate,
together with the exact result record. -/
def sbsRun (cfg : DetectorCfg) (ryz rxz rxy : SymbolReqs) (a : Amounts)
    (pyz pxz pxy : ℚ) (obyz obxz obxy : Ladder) (res : NormResult) : Prop :=
  ∃ y0 xb xs0 xs y : ℚ,
    normalizeOne ryz pyz a.y = some y0 ∧
    normalizeOne rxz pxz a.x_buy = some xb ∧
    normalizeOne rxy pxy a.x_sell = some xs0 ∧
    stepDownLoop rxy.amount_step rxy.min_amount
      (fun v => xb * (1 - cfg.fee) - v)
      (loopFuel xs0 rxy.min_amount rxy.amount_step) xs0 = some xs ∧
    stepDownLoop ryz.amount_step ryz.min_amount
      (fun v => calculate_counter_amount xs obxy * (1 - cfg.fee) - v)
      (loopFuel y0 ryz.min_amount ryz.amount_step) y0 = some y ∧
    calculate_counter_amount xb obxz ≠ 0 ∧
    cfg.min_profit ≤ res.profit_rel ∧
    res = ⟨y, xb, xs,
      xb * (1 - cfg.fee) - xs,
      calculate_counter_amount xs obxy * (1 - cfg.fee) - y,
      calculate_counter_amount xb obxz,
      calculate_counter_amount y obyz * (1 - cfg.fee) -
        calculate_counter_amount xb obxz,
      (calculate_counter_amount y obyz * (1 - cfg.fee) -
        calculate_counter_amount xb obxz) /
        calculate_counter_amount xb obxz⟩

/-- Description of a successful `"buy sell buy"` run of
`normalize_amounts_and_recalculate`. -/
def bsbRun (cfg : DetectorCfg) (ryz rxz rxy : SymbolReqs) (a : Amounts)
    (pyz pxz pxy : ℚ) (obyz obxz obxy : Ladder) (res : NormResult) : Prop :=
  ∃ y xs0 xb0 xb xs : ℚ,
    normalizeOne ryz pyz a.y = some y ∧
    normalizeOne rxz pxz a.x_sell = some xs0 ∧
    normalizeOne rxy pxy a.x_buy = some xb0 ∧
    stepDownLoop rxy.amount_step rxy.min_amount
      (fun v => y * (1 - cfg.fee) - calculate_counter_amount v obxy)
      (loopFuel xb0 rxy.min_amount rxy.amount_step) xb0 = some xb ∧
    stepDownLoop rxz.amount_step rxz.min_amount
      (fun v => xb * (1 - cfg.fee) - v)
      (loopFuel xs0 rxz.min_amount rxz.amount_step) xs0 = some xs ∧
    calculate_counter_amount y obyz ≠ 0 ∧
    cfg.min_profit ≤ res.profit_rel ∧
    res = ⟨y, xb, xs,
      xb * (1 - cfg.fee) - xs,
      y * (1 - cfg.fee) - calculate_counter_amount xb obxy,
      calculate_counter_amount y obyz,
      calculate_counter_amount xs obxz * (1 - cfg.fee) -
        calculate_counter_amount y obyz,
      (calculate_counter_amount xs obxz * (1 - cfg.fee) -
        calculate_counter_amount y obyz) /
        calculate_counter_amount y obyz⟩

/-- A currency pair `(base, quote)`. -/
abbrev Pair := String × String

/-- A triangle: three pairs, canonically `((Y,Z), (X,Z), (X,Y))`. -/
abbrev Triangle := Pair × Pair × Pair

/-- First half of `ArbitrageDetector._order_symbols_in_triangle`:
`if a[1] == c[1]: b, c = c, b; elif b[1] == c[1]: a, b, c = b, c, a`. -/
def orderStage1 (t : Triangle) : Triangle :=
  if t.1.2 = t.2.2.2 then (t.1, t.2.2, t.2.1)
  else if t.2.1.2 = t.2.2.2 then (t.2.1, t.2.2, t.1)
  else t

/-- Second half of `ArbitrageDetector._order_symbols_in_triangle`:
`if a[0] != c[1]: a, b = b, a`. -/
def orderStage2 (t : Triangle) : Triangle :=
  if t.1.1 ≠ t.2.2.2 then (t.2.1, t.1, t.2.2) else t

/-- `ArbitrageDetector._order_symbols_in_triangle`. -/
def order_symbols_in_triangle (t : Triangle) : Triangle :=
  orderStage2 (orderStage1 t)

/-- The closure identity checked by `ArbitrageDetector._verify_triangles`:
`triangle[0][0] == triangle[2][1] and triangle[0][1] == triangle[1][1]
and triangle[1][0] == triangle[2][0]`. -/
def closureId (t : Triangle) : Prop :=
  t.1.1 = t.2.2.2 ∧ t.1.2 = t.2.1.2 ∧ t.2.1.1 = t.2.2.1

instance (t : Triangle) : Decidable (closureId t) := by
  unfold closureId; infer_instance

/-- The triangle-set half of `ArbitrageDetector._verify_triangles`:
order every candidate, keep those satisfying the closure identity.
(The symbol→triangles reverse index the source builds alongside is not
modelled; the claims only concern the returned set.) -/
def verify_triangles (ts : List Triangle) : List Triangle :=
  (ts.map order_symbols_in_triangle).filter (fun t => decide (closureId t))

/-- `MarketAction`: one leg of an arbitrage. -/
structure MarketAction where
  pair : Pair
  action : String
  price : ℚ
  amount : ℚ
  deriving Repr, DecidableEq

/-- `Arbitrage`: a detected opportunity (all constructor fields of the
source class). -/
structure Arbitrage where
  actions : List MarketAction
  currency_z : String
  amount_z : ℚ
  profit_z : ℚ
  profit_z_rel : ℚ
  profit_y : ℚ
  currency_y : String
  profit_x : ℚ
  currency_x : String
  orderbooks : Ladder × Ladder × Ladder
  ts : ℤ
  deriving Repr, DecidableEq

/-- `BinanceExchange.make_symbol`: plain concatenation. -/
def make_symbol (base quote : String) : String := base ++ quote

/-- `ArbitrageDetector.reduce_arbitrage`.  The direction is inferred from
the first action's side (`'sell'` ↦ `"sell buy sell"`, anything else ↦
`"buy sell buy"`, as in the source's `if/else`).  An actions list that is
not exactly three long would crash the source on indexing and is
modelled as `none`. -/
def reduce_arbitrage (cfg : DetectorCfg) (arb : Arbitrage)
    (reduce_factor : ℚ) : Option Arbitrage :=
  match arb.actions with
  | [a0, a1, a2] =>
    if a0.action = "sell" then
      match normalize_amounts_and_recalculate cfg
          (make_symbol a0.pair.1 a0.pair.2) (make_symbol a1.pair.1 a1.pair.2)
          (make_symbol a2.pair.1 a2.pair.2) "sell buy sell"
          (limit_amounts
            ⟨a0.amount, a1.amount, a2.amount, arb.amount_z, arb.profit_z⟩
            reduce_factor)
          a0.price a1.price a2.price
          arb.orderbooks.1 arb.orderbooks.2.1 arb.orderbooks.2.2 with
      | none => none
      | some n =>
        some ⟨[⟨a0.pair, "sell", a0.price, n.y⟩,
               ⟨a1.pair, "buy", a1.price, n.x_buy⟩,
               ⟨a2.pair, "sell", a2.price, n.x_sell⟩],
          arb.currency_z, n.z_spend, n.z_profit, n.profit_rel,
          n.y_profit, arb.currency_y, n.x_profit, arb.currency_x,
          arb.orderbooks, arb.ts⟩
    else
      match normalize_amounts_and_recalculate cfg
          (make_symbol a0.pair.1 a0.pair.2) (make_symbol a1.pair.1 a1.pair.2)
          (make_symbol a2.pair.1 a2.pair.2) "buy sell buy"
          (limit_amounts
            ⟨a0.amount, a2.amount, a1.amount, arb.amount_z, arb.profit_z⟩
            reduce_factor)
          a0.price a1.price a2.price
          arb.orderbooks.1 arb.orderbooks.2.1 arb.orderbooks.2.2 with
      | none => none
      | some n =>
        some ⟨[⟨a0.pair, "buy", a0.price, n.y⟩,
               ⟨a1.pair, "sell", a1.price, n.x_sell⟩,
               ⟨a2.pair, "buy", a2.price, n.x_buy⟩],
          arb.currency_z, n.z_spend, n.z_profit, n.profit_rel,
          n.y_profit, arb.currency_y, n.x_profit, arb.currency_x,
          arb.orderbooks, arb.ts⟩
  | _ => none

/-- Input arbitrage of the `C10` counterexample: all three sides are
`'sell'`, which the code treats as direction `"sell buy sell"`. -/
def c10arb : Arbitrage :=
  ⟨[⟨("Y", "Z"), "sell", 1, 4⟩, ⟨("X", "Z"), "sell", 1, 2⟩,
    ⟨("X", "Y"), "sell", 1, 2⟩],
   "Z", 2, 0, 0, 0, "Y", 0, "X",
   ([(1, 10)], [(1, 10)], [(1, 10)]), 7⟩

/-- Output of `reduce_arbitrage okCfg c10arb 1`: the middle action's side
has been rewritten to `'buy'`. -/
def c10res : Arbitrage :=
  ⟨[⟨("Y", "Z"), "sell", 1, 2⟩, ⟨("X", "Z"), "buy", 1, 2⟩,
    ⟨("X", "Y"), "sell", 1, 2⟩],
   "Z", 2, 0, 0, 0, "Y", 0, "X",
   ([(1, 10)], [(1, 10)], [(1, 10)]), 7⟩

/-- Input arbitrage of the `C10` witness: sides follow the canonical
`sell buy sell` pattern. -/
def c10arbOk : Arbitrage :=
  ⟨[⟨("Y", "Z"), "sell", 1, 4⟩, ⟨("X", "Z"), "buy", 1, 2⟩,
    ⟨("X", "Y"), "sell", 1, 2⟩],
   "Z", 2, 0, 0, 0, "Y", 0, "X",
   ([(1, 10)], [(1, 10)], [(1, 10)]), 7⟩

/-- Accumulator of one direction's ladder walk in
`find_arbitrage_in_triangle`: the running amount totals, the marginal
prices of the last profitable level (`None` before the first), and the
depth (number of profitable levels consumed). -/
structure WalkOut where
  y : ℚ
  xb : ℚ
  xs : ℚ
  zs : ℚ
  zp : ℚ
  prices : Option (ℚ × ℚ × ℚ)
  depth : ℕ
  deriving Repr, DecidableEq

/-- Zero-initialised walk accumulator. -/
def walkInit : WalkOut := ⟨0, 0, 0, 0, 0, none, 0⟩

/-- The `"sell buy sell"` walk of `find_arbitrage_in_triangle`
(lines 510-541): consume bids(YZ), asks(XZ), bids(XY) while the marginal
cycle is profitable.  `none` models a raised exception (zero ask price in
the profitability ratio, a `Bad calculation!`, a negative level after
subtraction) and also fuel exhaustion (the source loop simply has not
returned in that case). -/
def walkA (fee min_profit : ℚ) :
    ℕ → Ladder → Ladder → Ladder → WalkOut → Option WalkOut
  | 0, _, _, _, _ => none
  | fuel + 1, byz, axz, bxy, acc =>
    match byz, axz, bxy with
    | (pyz, vyz) :: byzT, (pxz, vxz) :: axzT, (pxy, vxy) :: bxyT =>
      if pxz = 0 then none
      else if pyz / pxz * pxy * (1 - fee) ^ 3 - 1 < min_profit then some acc
      else
        match calculate_amounts_on_price_level fee "sell buy sell"
            (pyz, vyz) (pxz, vxz) (pxy, vxy) with
        | none => none
        | some (ay, axb, axs) =>
          if vyz - ay < 0 ∨ vxz - axb < 0 ∨ vxy - axs < 0 then none
          else
            walkA fee min_profit fuel
              (if vyz - ay = 0 then byzT else (pyz, vyz - ay) :: byzT)
              (if vxz - axb = 0 then axzT else (pxz, vxz - axb) :: axzT)
              (if vxy - axs = 0 then bxyT else (pxy, vxy - axs) :: bxyT)
              ⟨acc.y + ay, acc.xb + axb, acc.xs + axs,
               acc.zs + axb * pxz,
               acc.zp + (ay * pyz * (1 - fee) - axb * pxz),
               some (pyz, pxz, pxy), acc.depth + 1⟩
    | _, _, _ => some acc

/-- The `"buy sell buy"` walk of `find_arbitrage_in_triangle`
(lines 595-626): consume asks(YZ), bids(XZ), asks(XY). -/
def walkB (fee min_profit : ℚ) :
    ℕ → Ladder → Ladder → Ladder → WalkOut → Option WalkOut
  | 0, _, _, _, _ => none
  | fuel + 1, ayz, bxz, axy, acc =>
    match ayz, bxz, axy with
    | (pyz, vyz) :: ayzT, (pxz, vxz) :: bxzT, (pxy, vxy) :: axyT =>
      if pxy = 0 ∨ pyz = 0 then none
      else if pxz / pxy / pyz * (1 - fee) ^ 3 - 1 < min_profit then some acc
      else
        match calculate_amounts_on_price_level fee "buy sell buy"
            (pyz, vyz) (pxz, vxz) (pxy, vxy) with
        | none => none
        | some (ay, axb, axs) =>
          if vyz - ay < 0 ∨ vxz - axs < 0 ∨ vxy - axb < 0 then none
          else
            walkB fee min_profit fuel
              (if vyz - ay = 0 then ayzT else (pyz, vyz - ay) :: ayzT)
              (if vxz - axs = 0 then bxzT else (pxz, vxz - axs) :: bxzT)
              (if vxy - axb = 0 then axyT else (pxy, vxy - axb) :: axyT)
              ⟨acc.y + ay, acc.xb + axb, acc.xs + axs,
               acc.zs + ay * pyz,
               acc.zp + (axs * pxz * (1 - fee) - ay * pyz),
               some (pyz, pxz, pxy), acc.depth + 1⟩
    | _, _, _ => some acc

/-- Fuel for a walk: enough for books where every iteration consumes at
least one level, as the amount calculation guarantees on real books. -/
def walkFuel (l1 l2 l3 : Ladder) : ℕ := l1.length + l2.length + l3.length + 1

/-- The direction-A walk with its standard fuel and zero accumulator. -/
def runWalkA (cfg : DetectorCfg) (byz axz bxy : Ladder) : Option WalkOut :=
  walkA cfg.fee cfg.min_profit (walkFuel byz axz bxy) byz axz bxy walkInit

/-- The direction-B walk with its standard fuel and zero accumulator. -/
def runWalkB (cfg : DetectorCfg) (ayz bxz axy : Ladder) : Option WalkOut :=
  walkB cfg.fee cfg.min_profit (walkFuel ayz bxz axy) ayz bxz axy walkInit

/-- Direction-A normalisation step of `find_arbitrage_in_triangle`
(lines 542-562): if the walk found a profitable level, reduce the totals
by `reduce_factor` and normalise against the saved ladders. -/
def normFromWalkA (cfg : DetectorCfg) (yzS xzS xyS : String)
    (byz axz bxy : Ladder) (w : WalkOut) : Option NormResult :=
  match w.prices with
  | none => none
  | some (p1, p2, p3) =>
    normalize_amounts_and_recalculate cfg yzS xzS xyS "sell buy sell"
      (limit_amounts ⟨w.y, w.xb, w.xs, w.zs, w.zp⟩ cfg.reduce_factor)
      p1 p2 p3 byz axz bxy

/-- Direction-B normalisation step (lines 627-647). -/
def normFromWalkB (cfg : DetectorCfg) (yzS xzS xyS : String)
    (ayz bxz axy : Ladder) (w : WalkOut) : Option NormResult :=
  match w.prices with
  | none => none
  | some (p1, p2, p3) =>
    normalize_amounts_and_recalculate cfg yzS xzS xyS "buy sell buy"
      (limit_amounts ⟨w.y, w.xb, w.xs, w.zs, w.zp⟩ cfg.reduce_factor)
      p1 p2 p3 ayz bxz axy

/-- Whole direction-A scan: walk then normalise.  `none` means the
direction is not profitable on this scan (or the walk raised). -/
def scanDirA (cfg : DetectorCfg) (yzS xzS xyS : String)
    (byz axz bxy : Ladder) : Option NormResult :=
  match runWalkA cfg byz axz bxy with
  | none => none
  | some w => normFromWalkA cfg yzS xzS xyS byz axz bxy w

/-- Whole direction-B scan. -/
def scanDirB (cfg : DetectorCfg) (yzS xzS xyS : String)
    (ayz bxz axy : Ladder) : Option NormResult :=
  match runWalkB cfg ayz bxz axy with
  | none => none
  | some w => normFromWalkB cfg yzS xzS xyS ayz bxz axy w

/-- Result of one completed `find_arbitrage_in_triangle` call: the value
returned (`arb`), the two first-seen timestamps stored in
`_existing_arbitrages[pairs]` after the call, and the directions for
which an `arbitrage_disappeared` event was dispatched. -/
structure FindOut where
  arb : Option Arbitrage
  sbs : ℤ
  bsb : ℤ
  events : List String
  deriving Repr, DecidableEq

/-- The closing block of `find_arbitrage_in_triangle` (lines 672-678):
for each direction not found this scan whose stored timestamp is
positive, reset it to zero and dispatch `arbitrage_disappeared`. -/
def find_arb_final (stSbs : ℤ) (foundA : Bool) (stBsb : ℤ)
    (foundB : Bool) : Option FindOut :=
  some ⟨none,
    (if foundA = false ∧ stSbs > 0 then 0 else stSbs),
    (if foundB = false ∧ stBsb > 0 then 0 else stBsb),
    ((if foundA = false ∧ stSbs > 0 then ["sell buy sell"] else []) ++
     (if foundB = false ∧ stBsb > 0 then ["buy sell buy"] else []))⟩

/-- The direction-B half of `find_arbitrage_in_triangle`
(lines 587-670) followed by the closing block.  `stSbs'` and `foundA`
carry direction A's updated timestamp and found-flag. -/
def find_arb_second (cfg : DetectorCfg) (t : Triangle)
    (ayz bxz axy : Ladder) (yzS xzS xyS : String)
    (stSbs' : ℤ) (foundA : Bool) (stBsb : ℤ) (now : ℤ) : Option FindOut :=
  match runWalkB cfg ayz bxz axy with
  | none => none
  | some wB =>
    match wB.prices with
    | none => find_arb_final stSbs' foundA stBsb false
    | some (p1, p2, p3) =>
      match normalize_amounts_and_recalculate cfg yzS xzS xyS
          "buy sell buy"
          (limit_amounts ⟨wB.y, wB.xb, wB.xs, wB.zs, wB.zp⟩
            cfg.reduce_factor) p1 p2 p3 ayz bxz axy with
      | none => find_arb_final stSbs' foundA stBsb false
      | some nB =>
        let tsB := if stBsb = 0 then now else stBsb
        if cfg.min_age ≤ now - tsB ∧ cfg.min_depth ≤ wB.depth then
          some ⟨some ⟨[⟨t.1, "buy", p1, nB.y⟩,
              ⟨t.2.1, "sell", p2, nB.x_sell⟩,
              ⟨t.2.2, "buy", p3, nB.x_buy⟩],
            t.1.2, nB.z_spend, nB.z_profit, nB.profit_rel,
            nB.y_profit, t.1.1, nB.x_profit, t.2.1.1,
            (ayz, bxz, axy), now⟩, stSbs', tsB, []⟩
        else find_arb_final stSbs' foundA tsB true

/-- `ArbitrageDetector.find_arbitrage_in_triangle`.  The exchange state
is passed explicitly: the validity flags and both book sides of the
three symbols, the two stored first-seen timestamps for this triangle's
`pairs` key (already defaulted to `0` by the initialisation block), and
`now = int(time.time()*1000)` (the source reads the clock again for the
`ts` field; both reads are modelled as the same instant).  `none` models
a raised exception inside the walks or the final profit division. -/
def find_arbitrage_in_triangle (cfg : DetectorCfg) (t : Triangle)
    (validYZ validXZ validXY : Bool)
    (bidsYZ asksYZ bidsXZ asksXZ bidsXY asksXY : Ladder)
    (stSbs stBsb : ℤ) (now : ℤ) : Option FindOut :=
  if ¬ (validYZ && validXZ && validXY) then some ⟨none, stSbs, stBsb, []⟩
  else if bidsYZ = [] ∨ bidsXZ = [] ∨ bidsXY = [] ∨ asksYZ = [] ∨
      asksXZ = [] ∨ asksXY = [] then some ⟨none, stSbs, stBsb, []⟩
  else
    match runWalkA cfg bidsYZ asksXZ bidsXY with
    | none => none
    | some wA =>
      match wA.prices with
      | none =>
        find_arb_second cfg t asksYZ bidsXZ asksXY
          (make_symbol t.1.1 t.1.2) (make_symbol t.2.1.1 t.2.1.2)
          (make_symbol t.2.2.1 t.2.2.2) stSbs false stBsb now
      | some (p1, p2, p3) =>
        match normalize_amounts_and_recalculate cfg
            (make_symbol t.1.1 t.1.2) (make_symbol t.2.1.1 t.2.1.2)
            (make_symbol t.2.2.1 t.2.2.2) "sell buy sell"
            (limit_amounts ⟨wA.y, wA.xb, wA.xs, wA.zs, wA.zp⟩
              cfg.reduce_factor) p1 p2 p3 bidsYZ asksXZ bidsXY with
        | none =>
          find_arb_second cfg t asksYZ bidsXZ asksXY
            (make_symbol t.1.1 t.1.2) (make_symbol t.2.1.1 t.2.1.2)
            (make_symbol t.2.2.1 t.2.2.2) stSbs false stBsb now
        | some nA =>
          let tsA := if stSbs = 0 then now else stSbs
          if cfg.min_age ≤ now - tsA ∧ cfg.min_depth ≤ wA.depth then
            some ⟨some ⟨[⟨t.1, "sell", p1, nA.y⟩,
                ⟨t.2.1, "buy", p2, nA.x_buy⟩,
                ⟨t.2.2, "sell", p3, nA.x_sell⟩],
              t.1.2, nA.z_spend, nA.z_profit, nA.profit_rel,
              nA.y_profit, t.1.1, nA.x_profit, t.2.1.1,
              (bidsYZ, asksXZ, bidsXY), now⟩, tsA, stBsb, []⟩
          else
            find_arb_second cfg t asksYZ bidsXZ asksXY
              (make_symbol t.1.1 t.1.2) (make_symbol t.2.1.1 t.2.1.2)
              (make_symbol t.2.2.1 t.2.2.2) tsA true stBsb now

/-- The arbitrage emitted in the `C3`/`C4` concrete scan: direction
`"sell buy sell"` on books profitable at depth 1. -/
def c4arbA : Arbitrage :=
  ⟨[⟨("Y", "Z"), "sell", 2, 10⟩, ⟨("X", "Z"), "buy", 1, 10⟩,
    ⟨("X", "Y"), "sell", 1, 10⟩],
   "Z", 10, 10, 1, 0, "Y", 0, "X", ([(2, 10)], [(1, 10)], [(1, 10)]), 5⟩

/-- Outcome of the `C3`/`C4` concrete scan: direction A emits, and
direction B's stale timestamp `7` survives untouched with no
disappearance event. -/
def c4fr : FindOut := ⟨some c4arbA, 5, 7, []⟩

/-- Outcome of the `C4` witness scan: both directions unprofitable, the
stale `sell buy sell` timestamp `3` is reset with a disappearance
event. -/
def c4frW : FindOut := ⟨none, 0, 0, ["sell buy sell"]⟩

/-- `action_executor.Action`: one order to place.  A Python `price` of
`None` (market orders never carry one) is modelled as `0`. -/
structure Action where
  pair : Pair
  side : String
  quantity : ℚ
  price : ℚ
  order_type : String
  deriving Repr, DecidableEq

/-- Default `Action` for total list indexing (never reached on the
3-element lists the planner manipulates). -/
def defAction : Action := ⟨("", ""), "", 0, 0, ""⟩

/-- `action_executor.ActionSet`: sequential steps of parallel actions. -/
structure ActionSet where
  steps : List (List Action)
  deriving Repr, DecidableEq

/-- `BaseExchange.OrderResult` (the fields the executor reads). -/
structure OrderRes where
  symbol : String
  order_id : ℕ
  side : String
  price : ℚ
  amount_original : ℚ
  amount_executed : ℚ
  status : String
  deriving Repr, DecidableEq

/-- Default `OrderRes` for total list indexing. -/
def defOrderRes : OrderRes := ⟨"", 0, "", 0, 0, 0, ""⟩

/-- Asset gained by an action (base on a buy, quote otherwise),
from `ActionExecutor._get_executable_action_set` lines 352-358. -/
def gainOf (a : Action) : String :=
  if a.side = "BUY" then a.pair.1 else a.pair.2

/-- Asset spent by an action (quote on a buy, base otherwise). -/
def spendOf (a : Action) : String :=
  if a.side = "BUY" then a.pair.2 else a.pair.1

/-- The sequencing stage of `_get_executable_action_set`
(lines 347-366): exactly three actions, rearranged so each leg's gain
funds the next leg's spend; `none` is the raised `Error`. -/
def sequence_actions (actions : List Action) : Option (List Action) :=
  match actions with
  | [a0, a1, a2] =>
    if gainOf a0 = spendOf a1 ∧ gainOf a1 = spendOf a2 ∧
        gainOf a2 = spendOf a0 then
      some [a0, a1, a2]
    else if gainOf a0 = spendOf a2 ∧ gainOf a2 = spendOf a1 ∧
        gainOf a1 = spendOf a0 then
      some [a0, a2, a1]
    else none
  | _ => none

/-- Spendable amount of an action: `quantity * price` on a buy,
`quantity` otherwise (lines 377-382). -/
def spendAmount (a : Action) : ℚ :=
  if a.side = "BUY" then a.quantity * a.price else a.quantity

/-- Asset whose balance funds the action. -/
def spendAsset (a : Action) : String :=
  if a.side = "BUY" then a.pair.2 else a.pair.1

/-- `balance / amount` proportion of one action (line 385). -/
def balanceProp (balance : String → ℚ) (a : Action) : ℚ :=
  balance (spendAsset a) / spendAmount a

/-- Python `sorted` on the proportions (ascending, stable). -/
def sortedProps (l : List ℚ) : List ℚ :=
  l.mergeSort (fun a b => decide (a ≤ b))

/-- Python `list.index`: first index of a value. -/
def firstIndexOf (l : List ℚ) (v : ℚ) : ℕ :=
  l.findIdx (fun x => decide (x = v))

/-- The quantity-update loop of `_reduce_actions_by_proportion`
(lines 441-447): each action takes the amount of the reduced arbitrage
action with the same pair and side; a missing match crashes the source
(`None.amount`) and is `none` here. -/
def update_quantities (red : List MarketAction) :
    List Action → Option (List Action)
  | [] => some []
  | a :: rest =>
    match red.find? (fun ra =>
        decide (ra.pair = a.pair) && (ra.action.toUpper == a.side)) with
    | none => none
    | some ra =>
      match update_quantities red rest with
      | none => none
      | some rest2 => some ({ a with quantity := ra.amount } :: rest2)

/-- `ActionExecutor._reduce_actions_by_proportion`.  `arbQ` is
`self._arbitrage` (`none` when the executor has no detector/arbitrage,
in which case a reduction is impossible). -/
def reduce_actions_by_proportion (cfg : DetectorCfg)
    (arbQ : Option Arbitrage) (actions : List Action) (proportion : ℚ) :
    Option (List Action) :=
  if proportion < 1 then
    match arbQ with
    | none => none
    | some arb =>
      match reduce_arbitrage cfg arb proportion with
      | none => none
      | some red => update_quantities red.actions actions
  else some actions

/-- `ActionExecutor._get_executable_action_set`.  `balance` is the
account-info lookup; a zero spend amount would raise a division-by-zero
in Python and is modelled as `none`.  The three availability attempts
mirror lines 391-425; the 1/3 case rotates the list left by `idx_max`
(`deque.rotate(-idx_max)`). -/
def get_executable_action_set (cfg : DetectorCfg)
    (arbQ : Option Arbitrage) (balance : String → ℚ)
    (min_parallel_actions : ℕ) (raw : List Action) : Option ActionSet :=
  match sequence_actions raw with
  | none => none
  | some acts =>
    if acts.any (fun a => decide (spendAmount a = 0)) then none
    else
      match reduce_actions_by_proportion cfg arbQ acts
          (sortedProps (acts.map (balanceProp balance))).headI with
      | some red => some ⟨[red]⟩
      | none =>
        if min_parallel_actions = 3 then none
        else
          match reduce_actions_by_proportion cfg arbQ acts
              ((sortedProps (acts.map (balanceProp balance))).getD 1 0) with
          | some red =>
            some ⟨[[red.getD (firstIndexOf (acts.map (balanceProp balance))
                      ((sortedProps (acts.map (balanceProp balance))).getD 1 0))
                      defAction,
                    red.getD (firstIndexOf (acts.map (balanceProp balance))
                      ((sortedProps (acts.map (balanceProp balance))).getD 2 0))
                      defAction],
                   [red.getD (firstIndexOf (acts.map (balanceProp balance))
                      ((sortedProps (acts.map (balanceProp balance))).headI))
                      defAction]]⟩
          | none =>
            if min_parallel_actions = 2 then none
            else
              match reduce_actions_by_proportion cfg arbQ acts
                  ((sortedProps (acts.map (balanceProp balance))).getD 2 0) with
              | some red =>
                some ⟨[[red.getD ((firstIndexOf
                          (acts.map (balanceProp balance))
                          ((sortedProps (acts.map (balanceProp balance))).getD
                            2 0)) % 3) defAction],
                       [red.getD ((firstIndexOf
                          (acts.map (balanceProp balance))
                          ((sortedProps (acts.map (balanceProp balance))).getD
                            2 0) + 1) % 3) defAction],
                       [red.getD ((firstIndexOf
                          (acts.map (balanceProp balance))
                          ((sortedProps (acts.map (balanceProp balance))).getD
                            2 0) + 2) % 3) defAction]]⟩
              | none => none

/-- `ActionExecutor._revert_action`: side inverted, quantity net of fee
snapped down to the symbol's `amount_step`, MARKET order.  `stepOf` is
the `self._symbols_info[symbol]['amount_step']` lookup. -/
def revert_action (trade_fee : ℚ) (stepOf : String → ℚ) (a : Action) :
    Action :=
  ⟨a.pair, (if a.side = "SELL" then "BUY" else "SELL"),
   quantizeDown (a.quantity * (1 - trade_fee))
     (stepOf (make_symbol a.pair.1 a.pair.2)),
   0, "MARKET"⟩

/-- `ActionExecutor._finalize_action`: same side and quantity, MARKET. -/
def finalize_action (a : Action) : Action :=
  ⟨a.pair, a.side, a.quantity, 0, "MARKET"⟩

/-- Amount filled at cancellation time (`_cancel_order`, happy path):
for a live order the venue's cancel response reports the executed
amount (`cancelReport`); otherwise the stored result's executed amount
is used.  Venue errors on this path are not modelled. -/
def cancel_order_filled (ores : OrderRes) (cancelReport : ℚ) : ℚ :=
  if ores.status = "NEW" ∨ ores.status = "PARTIALLY_FILLED" then
    cancelReport
  else ores.amount_executed

/-- `ActionExecutor._cancel_and_revert`: cancel, then revert whatever
had filled (empty list if nothing filled). -/
def cancel_and_revert (trade_fee : ℚ) (stepOf : String → ℚ)
    (ores : OrderRes) (a : Action) (cancelReport : ℚ) : List Action :=
  if cancel_order_filled ores cancelReport > 0 then
    [⟨a.pair, (if a.side = "SELL" then "BUY" else "SELL"),
      quantizeDown (cancel_order_filled ores cancelReport * (1 - trade_fee))
        (stepOf (make_symbol a.pair.1 a.pair.2)),
      0, "MARKET"⟩]
  else []

/-- `ActionExecutor._cancel_and_finalize`: cancel, then finalize the
unfilled remainder (empty list if fully filled). -/
def cancel_and_finalize (stepOf : String → ℚ) (ores : OrderRes)
    (a : Action) (cancelReport : ℚ) : List Action :=
  if cancel_order_filled ores cancelReport < a.quantity then
    [⟨a.pair, a.side,
      quantizeDown (a.quantity - cancel_order_filled ores cancelReport)
        (stepOf (make_symbol a.pair.1 a.pair.2)),
      0, "MARKET"⟩]
  else []

/-- Fill classification (lines 185-203): action indices whose order is
`FILLED`, and those `PARTIALLY_FILLED` or `NEW` (others land in neither
list). -/
def classify (results : List OrderRes) : List ℕ × List ℕ :=
  ((List.range results.length).filter (fun i =>
      decide ((results.getD i defOrderRes).status = "FILLED")),
   (List.range results.length).filter (fun i =>
      decide ((results.getD i defOrderRes).status = "PARTIALLY_FILLED" ∨
        (results.getD i defOrderRes).status = "NEW")))

/-- Indices among `idxs` whose order is actually cancellable (`NEW` or
`PARTIALLY_FILLED`), i.e. for which `_cancel_order` issues a cancel. -/
def cancelledIdx (results : List OrderRes) (idxs : List ℕ) : List ℕ :=
  idxs.filter (fun i =>
    decide ((results.getD i defOrderRes).status = "NEW" ∨
      (results.getD i defOrderRes).status = "PARTIALLY_FILLED"))

/-- The fill-outcome decision block of `ActionExecutor.run`
(lines 209-278) for one step, as a pure function of the post-wait order
results.  Inputs: the executor config lookups, the plan shape
(`steps_total`, current `step`, the single action of step 1 used by the
step-2-of-3 revert), this step's actions and order results, the
venue-reported executed amounts at cancellation (`cancelReports`,
indexed like `actions`), and the indices whose placement failed.
Output: the scenario label set by the branch (`""` when the branch
falls through to the next step), the indices of orders cancelled, and
the emergency actions scheduled. -/
def fill_branch (trade_fee : ℚ) (stepOf : String → ℚ)
    (steps_total step : ℕ) (step1_action : Action)
    (actions : List Action) (results : List OrderRes)
    (cancelReports : List ℚ) (failed : List ℕ) :
    String × List ℕ × List Action :=
  let filled := (classify results).1
  let unfilled := (classify results).2
  if filled.length = actions.length then ("", [], [])
  else if filled.length = 0 then
    if step = 0 then
      let to_revert := unfilled.flatMap (fun i =>
        cancel_and_revert trade_fee stepOf (results.getD i defOrderRes)
          (actions.getD i defAction) (cancelReports.getD i 0))
      ((if to_revert.length > 0 then
          "reverted " ++ toString to_revert.length else "unfilled"),
       cancelledIdx results unfilled, to_revert)
    else if step = 1 ∧ steps_total = 3 then
      let to_revert := cancel_and_revert trade_fee stepOf
        (results.getD (unfilled.getD 0 0) defOrderRes)
        (actions.getD (unfilled.getD 0 0) defAction)
        (cancelReports.getD (unfilled.getD 0 0) 0)
      ((if to_revert.length > 0 then "reverted 2" else "reverted 1"),
       cancelledIdx results [unfilled.getD 0 0],
       to_revert ++ [revert_action trade_fee stepOf step1_action])
    else
      let to_finalize := unfilled.flatMap (fun i =>
        cancel_and_finalize stepOf (results.getD i defOrderRes)
          (actions.getD i defAction) (cancelReports.getD i 0))
      ((if to_finalize.length > 0 then "finalized" else "normal"),
       cancelledIdx results unfilled, to_finalize)
  else if filled.length = 1 ∧ actions.length > 1 then
    let to_revert := (unfilled.flatMap (fun i =>
      cancel_and_revert trade_fee stepOf (results.getD i defOrderRes)
        (actions.getD i defAction) (cancelReports.getD i 0)))
      ++ [revert_action trade_fee stepOf
            (actions.getD (filled.getD 0 0) defAction)]
    ("reverted " ++ toString to_revert.length,
     cancelledIdx results unfilled, to_revert)
  else if filled.length = 2 ∧ actions.length = 3 then
    if unfilled.length > 0 then
      let to_finalize := cancel_and_finalize stepOf
        (results.getD (unfilled.getD 0 0) defOrderRes)
        (actions.getD (unfilled.getD 0 0) defAction)
        (cancelReports.getD (unfilled.getD 0 0) 0)
      ((if to_finalize.length > 0 then "finalized" else "normal"),
       cancelledIdx results [unfilled.getD 0 0], to_finalize)
    else
      ("finalized", [],
       [finalize_action (actions.getD (failed.getD 0 0) defAction)])
  else ("", [], [])

/-- Concrete actions and order results for the `C6` scenario: a
one-step plan of two actions, the first completely filled, the second
unfilled (`NEW`, zero executed, cancel reports zero). -/
def c6actA : Action := ⟨("ETH", "BTC"), "SELL", 1, 1/10, "LIMIT"⟩

def c6actB : Action := ⟨("EOS", "ETH"), "BUY", 2, 1/2, "LIMIT"⟩

def c6resA : OrderRes := ⟨"ETHBTC", 1, "SELL", 1/10, 1, 1, "FILLED"⟩

def c6resB : OrderRes := ⟨"EOSETH", 2, "BUY", 1/2, 2, 0, "NEW"⟩

/-- Concrete action cycle for the `C5` witness: gain of each leg funds
the spend of the next, so `sequence_actions` accepts it unchanged. -/
def c5a0 : Action := ⟨("ETH", "BTC"), "SELL", 1, 1/10, "LIMIT"⟩

def c5a1 : Action := ⟨("EOS", "BTC"), "BUY", 2, 1/2, "LIMIT"⟩

def c5a2 : Action := ⟨("EOS", "ETH"), "SELL", 2, 1/20, "LIMIT"⟩

/- ------------------------------------------------------------------ -/
/- Support lemmas.                                                     -/
/- ------------------------------------------------------------------ -/

theorem stepDownLoop_profit {step minA : ℚ} {profitOf : ℚ → ℚ} :
    ∀ {fuel : ℕ} {a b : ℚ}, stepDownLoop step minA profitOf fuel a = some b →
      0 ≤ profitOf b := by
  intro fuel
  induction fuel with
  | zero => intro a b h; exact Option.noConfusion h
  | succ n ih =>
    intro a b h
    rw [stepDownLoop] at h
    split at h
    · rename_i hp; cases h; exact hp
    · split at h
      · exact Option.noConfusion h
      · exact ih h

theorem stepDownLoop_shape {step minA : ℚ} {profitOf : ℚ → ℚ} :
    ∀ {fuel : ℕ} {a b : ℚ}, stepDownLoop step minA profitOf fuel a = some b →
      (∃ n : ℕ, b = a - n * step) ∧ (b = a ∨ minA ≤ b) := by
  intro fuel
  induction fuel with
  | zero => intro a b h; exact Option.noConfusion h
  | succ n ih =>
    intro a b h
    rw [stepDownLoop] at h
    split at h
    · cases h; exact ⟨⟨0, by simp⟩, Or.inl rfl⟩
    · split at h
      · exact Option.noConfusion h
      · rename_i hmin
        obtain ⟨⟨m, hm⟩, hor⟩ := ih h
        refine ⟨⟨m + 1, by push_cast [hm]; ring⟩, Or.inr ?_⟩
        rcases hor with he | hle
        · rw [he]; exact not_lt.mp hmin
        · exact hle

theorem quantizeDown_nonneg {a step : ℚ} (ha : 0 ≤ a) :
    0 ≤ quantizeDown a step := by
  unfold quantizeDown truncQ
  rcases lt_trichotomy step 0 with hs | hs | hs
  · have hq : a / step ≤ 0 := div_nonpos_iff.mpr (Or.inl ⟨ha, hs.le⟩)
    split
    · have h1 : (⌈a / step⌉ : ℤ) ≤ 0 := Int.ceil_le.mpr (by exact_mod_cast hq)
      have h2 : ((⌈a / step⌉ : ℤ) : ℚ) ≤ 0 := by exact_mod_cast h1
      have h3 := mul_nonneg (neg_nonneg.mpr h2) (neg_nonneg.mpr hs.le)
      rwa [neg_mul_neg] at h3
    · rename_i hnlt
      have h0 : a / step = 0 := le_antisymm hq (not_lt.mp hnlt)
      rw [h0]; simp
  · rw [hs]; simp
  · have hq : 0 ≤ a / step := div_nonneg ha hs.le
    rw [if_neg (not_lt.mpr hq)]
    have h1 : (0 : ℤ) ≤ ⌊a / step⌋ := Int.floor_nonneg.mpr hq
    exact mul_nonneg (by exact_mod_cast h1) hs.le

theorem quantizeDown_le_mul {a step : ℚ} (hs : 0 < step) (k : ℤ)
    (h : a ≤ k * step) : quantizeDown a step ≤ k * step := by
  unfold quantizeDown truncQ
  have hdiv : a / step ≤ (k : ℚ) := by rw [div_le_iff₀ hs]; exact h
  split
  · have h1 : ⌈a / step⌉ ≤ k := Int.ceil_le.mpr hdiv
    exact mul_le_mul_of_nonneg_right (by exact_mod_cast h1) hs.le
  · have h1 : ⌊a / step⌋ ≤ k := by
      have h2 := Int.floor_le_floor (α := ℚ) hdiv
      rwa [Int.floor_intCast] at h2
    exact mul_le_mul_of_nonneg_right (by exact_mod_cast h1) hs.le

theorem mul_le_quantizeDown {a step : ℚ} (hs : 0 < step) (k : ℤ)
    (h : k * step ≤ a) : k * step ≤ quantizeDown a step := by
  unfold quantizeDown truncQ
  have hdiv : (k : ℚ) ≤ a / step := by rw [le_div_iff₀ hs]; exact h
  split
  · have h1 : k ≤ ⌈a / step⌉ := by
      exact_mod_cast le_trans hdiv (Int.le_ceil (a / step))
    exact mul_le_mul_of_nonneg_right (by exact_mod_cast h1) hs.le
  · have h1 : k ≤ ⌊a / step⌋ := Int.le_floor.mpr hdiv
    exact mul_le_mul_of_nonneg_right (by exact_mod_cast h1) hs.le

theorem normalizeOne_nonneg {r : SymbolReqs} {p a v : ℚ}
    (hmin : 0 ≤ r.min_amount) (hmax : 0 ≤ r.max_amount)
    (h : normalizeOne r p a = some v) : 0 ≤ v := by
  unfold normalizeOne notionalCheck at h
  split at h
  · exact Option.noConfusion h
  · rename_i hge
    split at h
    · split at h
      · exact Option.noConfusion h
      · cases h; exact hmax
    · split at h
      · exact Option.noConfusion h
      · cases h; exact quantizeDown_nonneg (le_trans hmin (not_lt.mp hge))

theorem normalizeOne_amountOk {r : SymbolReqs} {p a v : ℚ}
    (hstep : 0 < r.amount_step)
    (hmm : r.min_amount ≤ r.max_amount)
    (hminM : ∃ k : ℤ, r.min_amount = k * r.amount_step)
    (hmaxM : ∃ k : ℤ, r.max_amount = k * r.amount_step)
    (h : normalizeOne r p a = some v) : amountOk r v := by
  obtain ⟨km, hkm⟩ := hminM
  obtain ⟨kM, hkM⟩ := hmaxM
  unfold normalizeOne notionalCheck at h
  split at h
  · exact Option.noConfusion h
  · rename_i hge
    have hge' : r.min_amount ≤ a := not_lt.mp hge
    split at h
    · split at h
      · exact Option.noConfusion h
      · cases h; exact ⟨hmm, le_refl _, ⟨kM, hkM⟩⟩
    · rename_i hle
      have hle' : a ≤ r.max_amount := not_lt.mp hle
      split at h
      · exact Option.noConfusion h
      · cases h
        refine ⟨?_, ?_, ⟨truncQ (a / r.amount_step), rfl⟩⟩
        · rw [hkm]; exact mul_le_quantizeDown hstep km (hkm ▸ hge')
        · rw [hkM]; exact quantizeDown_le_mul hstep kM (hkM ▸ hle')

theorem stepDownLoop_amountOk {r : SymbolReqs} {profitOf : ℚ → ℚ}
    {fuel : ℕ} {a b : ℚ}
    (hstep : 0 < r.amount_step) (hOk : amountOk r a)
    (h : stepDownLoop r.amount_step r.min_amount profitOf fuel a = some b) :
    amountOk r b := by
  obtain ⟨⟨n, hn⟩, hor⟩ := stepDownLoop_shape h
  obtain ⟨h1, h2, k, hk⟩ := hOk
  refine ⟨?_, ?_, ⟨k - n, ?_⟩⟩
  · rcases hor with he | hle
    · rw [he]; exact h1
    · exact hle
  · have hns : (0 : ℚ) ≤ (n : ℚ) * r.amount_step :=
      mul_nonneg (by exact_mod_cast Nat.zero_le n) hstep.le
    rw [hn]; linarith
  · rw [hn, hk]; push_cast; ring

theorem counterGo_nonneg :
    ∀ {ob : Ladder} {c l : ℚ}, 0 ≤ c → 0 ≤ l → posLadder ob →
      0 ≤ counterGo c l ob := by
  intro ob
  induction ob with
  | nil => intro c l hc _ _; simpa [counterGo] using hc
  | cons pv rest ih =>
    intro c l hc hl hp
    obtain ⟨p, v⟩ := pv
    have hpv := hp (p, v) (List.mem_cons_self _ _)
    have hrest : posLadder rest := fun q hq => hp q (List.mem_cons_of_mem _ hq)
    rw [counterGo]
    split
    · rename_i hgt
      exact ih (add_nonneg hc (mul_nonneg hpv.1.le hpv.2.le))
        (by linarith) hrest
    · exact add_nonneg hc (mul_nonneg hpv.1.le hl)

theorem calculate_counter_amount_nonneg {amt : ℚ} {ob : Ladder}
    (h : 0 ≤ amt) (hp : posLadder ob) :
    0 ≤ calculate_counter_amount amt ob :=
  counterGo_nonneg (le_refl 0) h hp

theorem nar_some_inv {cfg : DetectorCfg} {yzS xzS xyS direction : String}
    {a : Amounts} {pyz pxz pxy : ℚ} {obyz obxz obxy : Ladder}
    {res : NormResult}
    (h : normalize_amounts_and_recalculate cfg yzS xzS xyS direction
        a pyz pxz pxy obyz obxz obxy = some res) :
    ∃ ryz rxz rxy, cfg.reqs yzS = some ryz ∧ cfg.reqs xzS = some rxz ∧
      cfg.reqs xyS = some rxy ∧
      ((direction = "sell buy sell" ∧
          sbsRun cfg ryz rxz rxy a pyz pxz pxy obyz obxz obxy res) ∨
       (direction = "buy sell buy" ∧
          bsbRun cfg ryz rxz rxy a pyz pxz pxy obyz obxz obxy res)) := by
  unfold normalize_amounts_and_recalculate at h
  cases hyz : cfg.reqs yzS with
  | none => simp [hyz] at h
  | some ryz =>
  cases hxz : cfg.reqs xzS with
  | none => simp [hyz, hxz] at h
  | some rxz =>
  cases hxy : cfg.reqs xyS with
  | none => simp [hyz, hxz, hxy] at h
  | some rxy =>
  simp only [hyz, hxz, hxy] at h
  refine ⟨ryz, rxz, rxy, rfl, rfl, rfl, ?_⟩
  by_cases hd1 : direction = "sell buy sell"
  · left
    refine ⟨hd1, ?_⟩
    rw [if_pos hd1] at h
    cases hy0 : normalizeOne ryz pyz a.y with
    | none => simp [hy0] at h
    | some y0 =>
    cases hxb : normalizeOne rxz pxz a.x_buy with
    | none => simp [hy0, hxb] at h
    | some xb =>
    cases hxs0 : normalizeOne rxy pxy a.x_sell with
    | none => simp [hy0, hxb, hxs0] at h
    | some xs0 =>
    simp only [hy0, hxb, hxs0] at h
    cases hL1 : stepDownLoop rxy.amount_step rxy.min_amount
        (fun v => xb * (1 - cfg.fee) - v)
        (loopFuel xs0 rxy.min_amount rxy.amount_step) xs0 with
    | none => simp [hL1] at h
    | some xs =>
    simp only [hL1] at h
    cases hL2 : stepDownLoop ryz.amount_step ryz.min_amount
        (fun v => calculate_counter_amount xs obxy * (1 - cfg.fee) - v)
        (loopFuel y0 ryz.min_amount ryz.amount_step) y0 with
    | none => simp [hL2] at h
    | some y =>
    simp only [hL2] at h
    split at h
    · exact Option.noConfusion h
    · rename_i hz0
      split at h
      · exact Option.noConfusion h
      · rename_i hpr
        cases h
        exact ⟨y0, xb, xs0, xs, y, hy0, hxb, hxs0, hL1, hL2, hz0,
          not_lt.mp hpr, rfl⟩
  · right
    rw [if_neg hd1] at h
    by_cases hd2 : direction = "buy sell buy"
    · refine ⟨hd2, ?_⟩
      rw [if_pos hd2] at h
      cases hy : normalizeOne ryz pyz a.y with
      | none => simp [hy] at h
      | some y =>
      cases hxs0 : normalizeOne rxz pxz a.x_sell with
      | none => simp [hy, hxs0] at h
      | some xs0 =>
      cases hxb0 : normalizeOne rxy pxy a.x_buy with
      | none => simp [hy, hxs0, hxb0] at h
      | some xb0 =>
      simp only [hy, hxs0, hxb0] at h
      cases hL1 : stepDownLoop rxy.amount_step rxy.min_amount
          (fun v => y * (1 - cfg.fee) - calculate_counter_amount v obxy)
          (loopFuel xb0 rxy.min_amount rxy.amount_step) xb0 with
      | none => simp [hL1] at h
      | some xb =>
      simp only [hL1] at h
      cases hL2 : stepDownLoop rxz.amount_step rxz.min_amount
          (fun v => xb * (1 - cfg.fee) - v)
          (loopFuel xs0 rxz.min_amount rxz.amount_step) xs0 with
      | none => simp [hL2] at h
      | some xs =>
      simp only [hL2] at h
      split at h
      · exact Option.noConfusion h
      · rename_i hz0
        split at h
        · exact Option.noConfusion h
        · rename_i hpr
          cases h
          exact ⟨y, xs0, xb0, xb, xs, hy, hxs0, hxb0, hL1, hL2, hz0,
            not_lt.mp hpr, rfl⟩
    · rw [if_neg hd2] at h
      exact Option.noConfusion h

/- ------------------------------------------------------------------ -/
/- Claim theorems: C1 and C2.                                          -/
/- ------------------------------------------------------------------ -/

/-- C1 (counterexample).  The claim "every action amount of a non-None
`normalize_amounts_and_recalculate` result satisfies
`min_amount ≤ amount ≤ max_amount`, is an integer multiple of
`amount_step`, and `amount * price ≥ min_notional`" fails on the code: in
this concrete `"sell buy sell"` run the `x_buy` amount is capped at the
`XZ` symbol's `max_amount = 5/2`, which is not an integer multiple of its
`amount_step = 1`, and the `y` amount (stepped down by the `y_profit`
loop) ends at `2`, whose notional `2 * 1` is below the `YZ` symbol's
`min_total = 3`. -/
theorem c1_counterexample :
    normalize_amounts_and_recalculate c1cfg "YZ" "XZ" "XY" "sell buy sell"
        ⟨5, 3, 2, 0, 0⟩ 1 1 1 [(2, 10)] [(1, 10)] [(1, 10)] = some c1res ∧
    c1cfg.reqs "YZ" = some ⟨1, 100, 1, 3⟩ ∧
    c1cfg.reqs "XZ" = some ⟨1, 5/2, 1, 0⟩ ∧
    c1res.y * 1 < 3 ∧
    ¬ (∃ k : ℤ, c1res.x_buy = k * 1) := by
  refine ⟨by with_unfolding_all decide, by with_unfolding_all decide,
    by with_unfolding_all decide, by norm_num [c1res], ?_⟩
  rintro ⟨k, hk⟩
  simp only [c1res, mul_one] at hk
  have h2 : (2 * k : ℚ) = 5 := by rw [← hk]; norm_num
  have h3 : (2 * k : ℤ) = 5 := by exact_mod_cast h2
  omega

/-- C1 (amended).  For every non-None result of
`normalize_amounts_and_recalculate`, provided every symbol's
`amount_step` is positive and its `min_amount` and `max_amount` are
integer multiples of the step with `min_amount ≤ max_amount`: each of the
three returned amounts lies in `[min_amount, max_amount]` of the symbol it
trades on and is an integer multiple of that symbol's `amount_step`
(`y` on YZ in both directions; `x_buy` on XZ and `x_sell` on XY for
`"sell buy sell"`; `x_sell` on XZ and `x_buy` on XY for
`"buy sell buy"`).  The `min_notional` part of the original claim is
dropped: the max-amount cap and the profit-restoring step-downs bypass
the notional check (see `c1_counterexample`). -/
theorem c1_amended
    (cfg : DetectorCfg) (yzS xzS xyS direction : String) (a : Amounts)
    (pyz pxz pxy : ℚ) (obyz obxz obxy : Ladder)
    (hreq : ∀ s r, cfg.reqs s = some r → 0 < r.amount_step ∧
        r.min_amount ≤ r.max_amount ∧
        (∃ k : ℤ, r.min_amount = k * r.amount_step) ∧
        (∃ k : ℤ, r.max_amount = k * r.amount_step))
    (res : NormResult)
    (h : normalize_amounts_and_recalculate cfg yzS xzS xyS direction
        a pyz pxz pxy obyz obxz obxy = some res)
    (ryz rxz rxy : SymbolReqs)
    (hyz : cfg.reqs yzS = some ryz) (hxz : cfg.reqs xzS = some rxz)
    (hxy : cfg.reqs xyS = some rxy) :
    amountOk ryz res.y ∧
    (direction = "sell buy sell" →
      amountOk rxz res.x_buy ∧ amountOk rxy res.x_sell) ∧
    (direction = "buy sell buy" →
      amountOk rxz res.x_sell ∧ amountOk rxy res.x_buy) := by
  obtain ⟨ryz', rxz', rxy', hyz', hxz', hxy', hrun⟩ := nar_some_inv h
  rw [hyz] at hyz'; rw [hxz] at hxz'; rw [hxy] at hxy'
  cases hyz'; cases hxz'; cases hxy'
  obtain ⟨hsyz, hmmyz, hminyz, hmaxyz⟩ := hreq yzS ryz hyz
  obtain ⟨hsxz, hmmxz, hminxz, hmaxxz⟩ := hreq xzS rxz hxz
  obtain ⟨hsxy, hmmxy, hminxy, hmaxxy⟩ := hreq xyS rxy hxy
  rcases hrun with ⟨hd, hrun⟩ | ⟨hd, hrun⟩
  · obtain ⟨y0, xb, xs0, xs, y, hy0, hxb, hxs0, hL1, hL2, hz0, hpr, hres⟩ :=
      hrun
    subst hres
    subst hd
    refine ⟨?_, fun _ => ⟨?_, ?_⟩, fun hc => absurd hc (by decide)⟩
    · exact stepDownLoop_amountOk hsyz
        (normalizeOne_amountOk hsyz hmmyz hminyz hmaxyz hy0) hL2
    · exact normalizeOne_amountOk hsxz hmmxz hminxz hmaxxz hxb
    · exact stepDownLoop_amountOk hsxy
        (normalizeOne_amountOk hsxy hmmxy hminxy hmaxxy hxs0) hL1
  · obtain ⟨y, xs0, xb0, xb, xs, hy, hxs0, hxb0, hL1, hL2, hz0, hpr, hres⟩ :=
      hrun
    subst hres
    subst hd
    refine ⟨?_, fun hc => absurd hc (by decide), fun _ => ⟨?_, ?_⟩⟩
    · exact normalizeOne_amountOk hsyz hmmyz hminyz hmaxyz hy
    · exact stepDownLoop_amountOk hsxz
        (normalizeOne_amountOk hsxz hmmxz hminxz hmaxxz hxs0) hL2
    · exact stepDownLoop_amountOk hsxy
        (normalizeOne_amountOk hsxy hmmxy hminxy hmaxxy hxb0) hL1

/-- C1 (witness): a concrete profitable run on benign requirements where
the amended guarantees hold; the conclusion instances are produced by
applying `c1_amended` at this input. -/
theorem c1_amended_witness :
    normalize_amounts_and_recalculate okCfg "YZ" "XZ" "XY" "sell buy sell"
        ⟨4, 2, 2, 0, 0⟩ 1 1 1 [(1, 10)] [(1, 10)] [(1, 10)] = some okRes ∧
    amountOk okReqs okRes.y ∧ amountOk okReqs okRes.x_buy ∧
    amountOk okReqs okRes.x_sell := by
  have hrun : normalize_amounts_and_recalculate okCfg "YZ" "XZ" "XY"
      "sell buy sell" ⟨4, 2, 2, 0, 0⟩ 1 1 1 [(1, 10)] [(1, 10)] [(1, 10)] =
      some okRes := by with_unfolding_all decide
  have hreq : ∀ s r, okCfg.reqs s = some r → 0 < r.amount_step ∧
      r.min_amount ≤ r.max_amount ∧
      (∃ k : ℤ, r.min_amount = k * r.amount_step) ∧
      (∃ k : ℤ, r.max_amount = k * r.amount_step) := by
    intro s r hr
    cases hr
    exact ⟨by norm_num [okReqs], by norm_num [okReqs],
      ⟨1, by norm_num [okReqs]⟩, ⟨100, by norm_num [okReqs]⟩⟩
  have hmain := c1_amended okCfg "YZ" "XZ" "XY" "sell buy sell"
    ⟨4, 2, 2, 0, 0⟩ 1 1 1 [(1, 10)] [(1, 10)] [(1, 10)] hreq okRes hrun
    okReqs okReqs okReqs rfl rfl rfl
  exact ⟨hrun, hmain.1, (hmain.2.1 rfl).1, (hmain.2.1 rfl).2⟩

/-- C2 (counterexample).  The claim "for direction `"sell buy sell"` or
`"buy sell buy"`, `min_profit ≥ 0` and ladders of positive prices and
volumes, a non-None result has `x_profit, y_profit, z_profit ≥ 0` and
`profit_rel ≥ min_profit`" fails on the code: with (perverse but not
excluded) negative `min_amount`/`min_total` requirements, a run can end
with `z_spend = -4 < 0` and `z_profit = -4 < 0` while
`profit_rel = (-4)/(-4) = 1 ≥ 0`, so the profit gate passes and the
result is returned with a negative `z_profit`. -/
theorem c2_counterexample :
    (0 : ℚ) ≤ c2cfg.min_profit ∧
    posLadder [(2, 5)] ∧ posLadder [(1, 5)] ∧
    normalize_amounts_and_recalculate c2cfg "YZ" "XZ" "XY" "sell buy sell"
        ⟨1, -4, -4, 0, 0⟩ 1 1 1 [(2, 5)] [(1, 5)] [(1, 5)] = some c2res ∧
    c2res.z_profit < 0 := by
  refine ⟨by with_unfolding_all decide, ?_, ?_, by with_unfolding_all decide,
    by norm_num [c2res]⟩
  · intro pv hpv
    simp only [List.mem_singleton] at hpv
    subst hpv
    constructor <;> norm_num
  · intro pv hpv
    simp only [List.mem_singleton] at hpv
    subst hpv
    constructor <;> norm_num

/-- C2 (amended).  With the additional hypothesis that every symbol's
`min_amount` and `max_amount` are nonnegative (true of real exchange
filters), the claim holds: a non-None
`normalize_amounts_and_recalculate` result has `x_profit ≥ 0`,
`y_profit ≥ 0`, `z_profit ≥ 0` and `profit_rel ≥ min_profit`. -/
theorem c2_amended
    (cfg : DetectorCfg) (yzS xzS xyS direction : String) (a : Amounts)
    (pyz pxz pxy : ℚ) (obyz obxz obxy : Ladder)
    (hdir : direction = "sell buy sell" ∨ direction = "buy sell buy")
    (hmp : 0 ≤ cfg.min_profit)
    (hobyz : posLadder obyz) (hobxz : posLadder obxz)
    (hobxy : posLadder obxy)
    (hreq : ∀ s r, cfg.reqs s = some r →
        0 ≤ r.min_amount ∧ 0 ≤ r.max_amount)
    (res : NormResult)
    (h : normalize_amounts_and_recalculate cfg yzS xzS xyS direction
        a pyz pxz pxy obyz obxz obxy = some res) :
    0 ≤ res.x_profit ∧ 0 ≤ res.y_profit ∧ 0 ≤ res.z_profit ∧
      cfg.min_profit ≤ res.profit_rel := by
  clear hdir
  obtain ⟨ryz, rxz, rxy, hyz, hxz, hxy, hrun⟩ := nar_some_inv h
  rcases hrun with ⟨hd, hrun⟩ | ⟨hd, hrun⟩
  · obtain ⟨y0, xb, xs0, xs, y, hy0, hxb, hxs0, hL1, hL2, hz0, hpr, hres⟩ :=
      hrun
    subst hres
    refine ⟨stepDownLoop_profit hL1, stepDownLoop_profit hL2, ?_, hpr⟩
    have hxb0 : 0 ≤ xb :=
      normalizeOne_nonneg (hreq xzS rxz hxz).1 (hreq xzS rxz hxz).2 hxb
    have hzs : 0 ≤ calculate_counter_amount xb obxz :=
      calculate_counter_amount_nonneg hxb0 hobxz
    have hrel : 0 ≤ (calculate_counter_amount y obyz * (1 - cfg.fee) -
        calculate_counter_amount xb obxz) /
        calculate_counter_amount xb obxz := le_trans hmp hpr
    have h2 := mul_nonneg hrel hzs
    rwa [div_mul_cancel₀ _ hz0] at h2
  · obtain ⟨y, xs0, xb0, xb, xs, hy, hxs0, hxb0, hL1, hL2, hz0, hpr, hres⟩ :=
      hrun
    subst hres
    have hyprof := stepDownLoop_profit hL1
    refine ⟨stepDownLoop_profit hL2, hyprof, ?_, hpr⟩
    have hy0 : 0 ≤ y :=
      normalizeOne_nonneg (hreq yzS ryz hyz).1 (hreq yzS ryz hyz).2 hy
    have hzs : 0 ≤ calculate_counter_amount y obyz :=
      calculate_counter_amount_nonneg hy0 hobyz
    have hrel : 0 ≤ (calculate_counter_amount xs obxz * (1 - cfg.fee) -
        calculate_counter_amount y obyz) /
        calculate_counter_amount y obyz := le_trans hmp hpr
    have h2 := mul_nonneg hrel hzs
    rwa [div_mul_cancel₀ _ hz0] at h2

theorem integrityCheck_some {direction : String} {yz xz xy : ℚ × ℚ}
    {ay axb axs : ℚ}
    (h1 : ay ≤ yz.2)
    (h2 : direction = "sell buy sell" → axb ≤ xz.2 ∧ axs ≤ xy.2)
    (h3 : direction = "buy sell buy" → axs ≤ xz.2 ∧ axb ≤ xy.2) :
    integrityCheck direction yz xz xy ay axb axs = some (ay, axb, axs) := by
  unfold integrityCheck
  rw [if_neg]
  rintro (h | ⟨h, hd⟩ | ⟨h, hd⟩)
  · exact absurd h1 (not_le.mpr h)
  · obtain ⟨b1, b2⟩ := h2 hd
    rcases h with h | h
    · exact absurd b1 (not_le.mpr h)
    · exact absurd b2 (not_le.mpr h)
  · obtain ⟨b1, b2⟩ := h3 hd
    rcases h with h | h
    · exact absurd b1 (not_le.mpr h)
    · exact absurd b2 (not_le.mpr h)

/-- C8: for both cycle directions, any fee in `[0, 1)` and positive
prices and volumes on the three levels,
`calculate_amounts_on_price_level` passes its final integrity check (the
`Bad calculation!` branch is unreachable) and the returned amounts
respect the level volumes: `amount_y ≤ yz.volume`, and for
`"sell buy sell"` `amount_x_buy ≤ xz.volume ∧ amount_x_sell ≤ xy.volume`
(swapped for `"buy sell buy"`). -/
theorem c8_integrity
    (fee : ℚ) (direction : String) (pyz vyz pxz vxz pxy vxy : ℚ)
    (hdir : direction = "sell buy sell" ∨ direction = "buy sell buy")
    (hfee0 : 0 ≤ fee) (hfee1 : fee < 1)
    (hpyz : 0 < pyz) (hpxz : 0 < pxz) (hpxy : 0 < pxy)
    (hvyz : 0 < vyz) (hvxz : 0 < vxz) (hvxy : 0 < vxy) :
    ∃ ay axb axs,
      calculate_amounts_on_price_level fee direction (pyz, vyz) (pxz, vxz)
        (pxy, vxy) = some (ay, axb, axs) ∧
      ay ≤ vyz ∧
      (direction = "sell buy sell" → axb ≤ vxz ∧ axs ≤ vxy) ∧
      (direction = "buy sell buy" → axs ≤ vxz ∧ axb ≤ vxy) := by
  have hg : 0 < 1 - fee := by linarith
  have hfe : fee ≠ 1 := ne_of_lt hfee1
  unfold calculate_amounts_on_price_level
  rw [if_neg hfe]
  rcases hdir with hd | hd <;> subst hd
  · rw [if_pos rfl]
    dsimp only
    by_cases hcap : min vxz vxy / (1 - fee) > vxz
    · rw [if_pos hcap]
      have hkey : vxz * (1 - fee) < min vxz vxy := by
        rw [gt_iff_lt, lt_div_iff₀ hg] at hcap
        exact hcap
      by_cases hycap : vxz * (1 - fee) * pxy * (1 - fee) > vyz
      · rw [if_pos hycap, if_neg (ne_of_gt hpxy)]
        have hpg : 0 < pxy * (1 - fee) := mul_pos hpxy hg
        have haxs : vyz / pxy / (1 - fee) < vxz * (1 - fee) := by
          rw [div_div, div_lt_iff₀ hpg]
          calc vyz < vxz * (1 - fee) * pxy * (1 - fee) := hycap
            _ = vxz * (1 - fee) * (pxy * (1 - fee)) := by ring
        have haxsxy : vyz / pxy / (1 - fee) ≤ vxy :=
          le_of_lt (lt_of_lt_of_le (lt_trans haxs hkey) (min_le_right _ _))
        have haxb : vyz / pxy / (1 - fee) / (1 - fee) ≤ vxz := by
          have h2 : vyz / pxy / (1 - fee) / (1 - fee) <
              vxz * (1 - fee) / (1 - fee) := (div_lt_div_right hg).mpr haxs
          rw [mul_div_cancel_right₀ _ (ne_of_gt hg)] at h2
          exact le_of_lt h2
        exact ⟨_, _, _,
          integrityCheck_some (le_refl _) (fun _ => ⟨haxb, haxsxy⟩)
            (fun hc => absurd hc (by decide)),
          le_refl _, fun _ => ⟨haxb, haxsxy⟩, fun hc => absurd hc (by decide)⟩
      · rw [if_neg hycap]
        have hay : vxz * (1 - fee) * pxy * (1 - fee) ≤ vyz := not_lt.mp hycap
        have haxs : vxz * (1 - fee) ≤ vxy :=
          le_of_lt (lt_of_lt_of_le hkey (min_le_right _ _))
        exact ⟨_, _, _,
          integrityCheck_some hay (fun _ => ⟨le_refl _, haxs⟩)
            (fun hc => absurd hc (by decide)),
          hay, fun _ => ⟨le_refl _, haxs⟩, fun hc => absurd hc (by decide)⟩
    · rw [if_neg hcap]
      have hble : min vxz vxy / (1 - fee) ≤ vxz := not_lt.mp hcap
      by_cases hycap : min vxz vxy * pxy * (1 - fee) > vyz
      · rw [if_pos hycap, if_neg (ne_of_gt hpxy)]
        have hpg : 0 < pxy * (1 - fee) := mul_pos hpxy hg
        have haxs : vyz / pxy / (1 - fee) < min vxz vxy := by
          rw [div_div, div_lt_iff₀ hpg]
          calc vyz < min vxz vxy * pxy * (1 - fee) := hycap
            _ = min vxz vxy * (pxy * (1 - fee)) := by ring
        have haxsxy : vyz / pxy / (1 - fee) ≤ vxy :=
          le_of_lt (lt_of_lt_of_le haxs (min_le_right _ _))
        have haxb : vyz / pxy / (1 - fee) / (1 - fee) ≤ vxz := by
          have h2 : vyz / pxy / (1 - fee) / (1 - fee) <
              min vxz vxy / (1 - fee) := (div_lt_div_right hg).mpr haxs
          exact le_of_lt (lt_of_lt_of_le h2 hble)
        exact ⟨_, _, _,
          integrityCheck_some (le_refl _) (fun _ => ⟨haxb, haxsxy⟩)
            (fun hc => absurd hc (by decide)),
          le_refl _, fun _ => ⟨haxb, haxsxy⟩, fun hc => absurd hc (by decide)⟩
      · rw [if_neg hycap]
        have hay : min vxz vxy * pxy * (1 - fee) ≤ vyz := not_lt.mp hycap
        exact ⟨_, _, _,
          integrityCheck_some hay (fun _ => ⟨hble, min_le_right _ _⟩)
            (fun hc => absurd hc (by decide)),
          hay, fun _ => ⟨hble, min_le_right _ _⟩,
          fun hc => absurd hc (by decide)⟩
  · rw [if_neg (by decide), if_pos rfl]
    dsimp only
    by_cases hcap : min vxz vxy / (1 - fee) > vxy
    · rw [if_pos hcap]
      have hkey : vxy * (1 - fee) < min vxz vxy := by
        rw [gt_iff_lt, lt_div_iff₀ hg] at hcap
        exact hcap
      by_cases hycap : vxy * pxy / (1 - fee) > vyz
      · rw [if_pos hycap, if_neg (ne_of_gt hpxy)]
        have haxb : vyz * (1 - fee) / pxy < vxy := by
          rw [div_lt_iff₀ hpxy]
          exact (lt_div_iff₀ hg).mp hycap
        have haxs : vyz * (1 - fee) / pxy * (1 - fee) ≤ vxz := by
          have h2 : vyz * (1 - fee) / pxy * (1 - fee) < vxy * (1 - fee) :=
            mul_lt_mul_of_pos_right haxb hg
          exact le_of_lt
            (lt_of_lt_of_le (lt_trans h2 hkey) (min_le_left _ _))
        exact ⟨_, _, _,
          integrityCheck_some (le_refl _) (fun hc => absurd hc (by decide))
            (fun _ => ⟨haxs, le_of_lt haxb⟩),
          le_refl _, fun hc => absurd hc (by decide),
          fun _ => ⟨haxs, le_of_lt haxb⟩⟩
      · rw [if_neg hycap]
        have hay : vxy * pxy / (1 - fee) ≤ vyz := not_lt.mp hycap
        have haxs : vxy * (1 - fee) ≤ vxz :=
          le_of_lt (lt_of_lt_of_le hkey (min_le_left _ _))
        exact ⟨_, _, _,
          integrityCheck_some hay (fun hc => absurd hc (by decide))
            (fun _ => ⟨haxs, le_refl _⟩),
          hay, fun hc => absurd hc (by decide), fun _ => ⟨haxs, le_refl _⟩⟩
    · rw [if_neg hcap]
      have hble : min vxz vxy / (1 - fee) ≤ vxy := not_lt.mp hcap
      by_cases hycap : min vxz vxy / (1 - fee) * pxy / (1 - fee) > vyz
      · rw [if_pos hycap, if_neg (ne_of_gt hpxy)]
        have haxb : vyz * (1 - fee) / pxy < min vxz vxy / (1 - fee) := by
          rw [div_lt_iff₀ hpxy]
          exact (lt_div_iff₀ hg).mp hycap
        have haxble : vyz * (1 - fee) / pxy ≤ vxy :=
          le_of_lt (lt_of_lt_of_le haxb hble)
        have haxs : vyz * (1 - fee) / pxy * (1 - fee) ≤ vxz := by
          have h2 : vyz * (1 - fee) / pxy * (1 - fee) <
              min vxz vxy / (1 - fee) * (1 - fee) :=
            mul_lt_mul_of_pos_right haxb hg
          rw [div_mul_cancel₀ _ (ne_of_gt hg)] at h2
          exact le_of_lt (lt_of_lt_of_le h2 (min_le_left _ _))
        exact ⟨_, _, _,
          integrityCheck_some (le_refl _) (fun hc => absurd hc (by decide))
            (fun _ => ⟨haxs, haxble⟩),
          le_refl _, fun hc => absurd hc (by decide),
          fun _ => ⟨haxs, haxble⟩⟩
      · rw [if_neg hycap]
        have hay : min vxz vxy / (1 - fee) * pxy / (1 - fee) ≤ vyz :=
          not_lt.mp hycap
        exact ⟨_, _, _,
          integrityCheck_some hay (fun hc => absurd hc (by decide))
            (fun _ => ⟨min_le_left _ _, hble⟩),
          hay, fun hc => absurd hc (by decide),
          fun _ => ⟨min_le_left _ _, hble⟩⟩

/-- C8 (witness): the integrity theorem applied at fee `0` and unit
levels in the `"sell buy sell"` direction. -/
theorem c8_integrity_witness :
    ((0 : ℚ) ≤ 0 ∧ (0 : ℚ) < 1 ∧ (0 : ℚ) < 1) ∧
    (∃ ay axb axs,
      calculate_amounts_on_price_level 0 "sell buy sell" (1, 1) (1, 1)
        (1, 1) = some (ay, axb, axs) ∧
      ay ≤ 1 ∧
      ("sell buy sell" = "sell buy sell" → axb ≤ 1 ∧ axs ≤ 1) ∧
      ("sell buy sell" = "buy sell buy" → axs ≤ 1 ∧ axb ≤ 1)) :=
  ⟨⟨le_refl 0, by norm_num, by norm_num⟩,
    c8_integrity 0 "sell buy sell" 1 1 1 1 1 1 (Or.inl rfl) (le_refl 0)
      (by norm_num) (by norm_num) (by norm_num) (by norm_num) (by norm_num)
      (by norm_num) (by norm_num)⟩

/-- C7: every triangle in the set returned by `_verify_triangles`
satisfies the closure identity (canonical order `((Y,Z),(X,Z),(X,Y))`)
and is the canonicalisation of some input triple; an input triple whose
canonicalisation fails the closure identity is absent from the returned
set. -/
theorem c7_verify_triangles (ts : List Triangle) :
    (∀ t ∈ verify_triangles ts,
      closureId t ∧ ∃ s ∈ ts, t = order_symbols_in_triangle s) ∧
    (∀ s ∈ ts, ¬ closureId (order_symbols_in_triangle s) →
      order_symbols_in_triangle s ∉ verify_triangles ts) := by
  constructor
  · intro t ht
    rw [verify_triangles, List.mem_filter] at ht
    obtain ⟨hmem, hcl⟩ := ht
    rw [List.mem_map] at hmem
    obtain ⟨s, hs, hst⟩ := hmem
    exact ⟨of_decide_eq_true hcl, s, hs, hst.symm⟩
  · intro s _ hncl hmem
    rw [verify_triangles, List.mem_filter] at hmem
    exact hncl (of_decide_eq_true hmem.2)

/-- C7 (witness): on a concrete scrambled input triple the verified set
is the canonical triangle, and the theorem's conclusions apply to it. -/
theorem c7_verify_triangles_witness :
    (("ETH", "BTC"), ("EOS", "BTC"), ("EOS", "ETH")) ∈
      verify_triangles [(("EOS", "BTC"), ("ETH", "BTC"), ("EOS", "ETH"))] ∧
    closureId ((("ETH", "BTC"), ("EOS", "BTC"), ("EOS", "ETH")) : Triangle) ∧
    (∃ s ∈ [((("EOS", "BTC"), ("ETH", "BTC"), ("EOS", "ETH")) : Triangle)],
      (("ETH", "BTC"), ("EOS", "BTC"), ("EOS", "ETH")) =
        order_symbols_in_triangle s) := by
  have hmem : (("ETH", "BTC"), ("EOS", "BTC"), ("EOS", "ETH")) ∈
      verify_triangles [(("EOS", "BTC"), ("ETH", "BTC"), ("EOS", "ETH"))] :=
    by decide
  exact ⟨hmem,
    (c7_verify_triangles
      [(("EOS", "BTC"), ("ETH", "BTC"), ("EOS", "ETH"))]).1 _ hmem⟩

/-- C9: `_order_symbols_in_triangle` is the identity on a triangle that
already satisfies the closure identity with pairwise distinct
currencies X, Y, Z. -/
theorem c9_order_idempotent (t : Triangle)
    (hcl : closureId t)
    (hXY : t.2.1.1 ≠ t.1.1) (hYZ : t.1.1 ≠ t.1.2) (hXZ : t.2.1.1 ≠ t.1.2) :
    order_symbols_in_triangle t = t := by
  obtain ⟨⟨y, z⟩, ⟨x2, z2⟩, ⟨x3, y3⟩⟩ := t
  obtain ⟨h1, h2, h3⟩ := hcl
  dsimp only at h1 h2 h3 hXY hYZ hXZ
  subst h1; subst h2; subst h3
  have hs1 : orderStage1 ((y, z), (x2, z), (x2, y)) =
      ((y, z), (x2, z), (x2, y)) := by
    unfold orderStage1
    dsimp only
    rw [if_neg (fun h => hYZ h.symm), if_neg (fun h => hYZ h.symm)]
  have hs2 : orderStage2 ((y, z), (x2, z), (x2, y)) =
      ((y, z), (x2, z), (x2, y)) := by
    unfold orderStage2
    dsimp only
    rw [if_neg (fun h => h rfl)]
  rw [order_symbols_in_triangle, hs1, hs2]

/-- C9 (witness): idempotence at the concrete canonical triangle
`((ETH,BTC),(EOS,BTC),(EOS,ETH))`. -/
theorem c9_order_idempotent_witness :
    closureId ((("ETH", "BTC"), ("EOS", "BTC"), ("EOS", "ETH")) : Triangle) ∧
    order_symbols_in_triangle
      (("ETH", "BTC"), ("EOS", "BTC"), ("EOS", "ETH")) =
      (("ETH", "BTC"), ("EOS", "BTC"), ("EOS", "ETH")) :=
  ⟨by decide,
    c9_order_idempotent (("ETH", "BTC"), ("EOS", "BTC"), ("EOS", "ETH"))
      (by decide) (by decide) (by decide) (by decide)⟩

/-- C10 (counterexample).  The claim "whenever `reduce_arbitrage`
returns a non-None Arbitrage, each action keeps its pair, side and
price" fails on the code: the sides of the rebuilt actions are hardwired
from the first action's side, so an input whose second action is
`'sell'` under a `'sell'` first action comes back with side `'buy'`. -/
theorem c10_counterexample :
    reduce_arbitrage okCfg c10arb 1 = some c10res ∧
    c10arb.actions.map MarketAction.action = ["sell", "sell", "sell"] ∧
    c10res.actions.map MarketAction.action = ["sell", "buy", "sell"] :=
  ⟨by with_unfolding_all decide, by decide, by decide⟩

/-- C10 (amended).  If the input actions follow one of the two canonical
side patterns (`sell, buy, sell` or `buy, sell, buy` — which
`reduce_arbitrage` assumes, per its source comment), then a non-None
result preserves each action's pair, side and price, and the result's
`currency_x`, `currency_y`, `currency_z`, `orderbooks` and `ts` equal
the input's; only the amounts and the recomputed profit fields change. -/
theorem c10_amended
    (cfg : DetectorCfg) (arb : Arbitrage) (reduce_factor : ℚ)
    (a0 a1 a2 : MarketAction) (ha : arb.actions = [a0, a1, a2])
    (hside : (a0.action = "sell" ∧ a1.action = "buy" ∧ a2.action = "sell") ∨
             (a0.action = "buy" ∧ a1.action = "sell" ∧ a2.action = "buy"))
    (r : Arbitrage) (h : reduce_arbitrage cfg arb reduce_factor = some r) :
    (∃ b0 b1 b2, r.actions = [b0, b1, b2] ∧
      b0.pair = a0.pair ∧ b0.action = a0.action ∧ b0.price = a0.price ∧
      b1.pair = a1.pair ∧ b1.action = a1.action ∧ b1.price = a1.price ∧
      b2.pair = a2.pair ∧ b2.action = a2.action ∧ b2.price = a2.price) ∧
    r.currency_x = arb.currency_x ∧ r.currency_y = arb.currency_y ∧
    r.currency_z = arb.currency_z ∧ r.orderbooks = arb.orderbooks ∧
    r.ts = arb.ts := by
  unfold reduce_arbitrage at h
  rw [ha] at h
  dsimp only at h
  rcases hside with ⟨h0, h1, h2⟩ | ⟨h0, h1, h2⟩
  · rw [if_pos h0] at h
    split at h
    · exact Option.noConfusion h
    · cases h
      exact ⟨⟨_, _, _, rfl, rfl, h0.symm, rfl, rfl, h1.symm, rfl,
        rfl, h2.symm, rfl⟩, rfl, rfl, rfl, rfl, rfl⟩
  · rw [if_neg (fun hc => by rw [h0] at hc; exact absurd hc (by decide))]
      at h
    split at h
    · exact Option.noConfusion h
    · cases h
      exact ⟨⟨_, _, _, rfl, rfl, h0.symm, rfl, rfl, h1.symm, rfl,
        rfl, h2.symm, rfl⟩, rfl, rfl, rfl, rfl, rfl⟩

/-- C10 (witness): the frame property applied at a concrete reducible
arbitrage with canonical sides. -/
theorem c10_amended_witness :
    reduce_arbitrage okCfg c10arbOk 1 = some c10res ∧
    ((∃ b0 b1 b2, c10res.actions = [b0, b1, b2] ∧
      b0.pair = ("Y", "Z") ∧ b0.action = "sell" ∧ b0.price = 1 ∧
      b1.pair = ("X", "Z") ∧ b1.action = "buy" ∧ b1.price = 1 ∧
      b2.pair = ("X", "Y") ∧ b2.action = "sell" ∧ b2.price = 1) ∧
    c10res.currency_x = c10arbOk.currency_x ∧
    c10res.currency_y = c10arbOk.currency_y ∧
    c10res.currency_z = c10arbOk.currency_z ∧
    c10res.orderbooks = c10arbOk.orderbooks ∧
    c10res.ts = c10arbOk.ts) := by
  have hrun : reduce_arbitrage okCfg c10arbOk 1 = some c10res := by
    with_unfolding_all decide
  exact ⟨hrun, c10_amended okCfg c10arbOk 1 _ _ _ rfl
    (Or.inl ⟨rfl, rfl, rfl⟩) c10res hrun⟩

/-- C2 (witness): the amended claim applied at a concrete profitable
`"sell buy sell"` run with benign requirements. -/
theorem c2_amended_witness :
    normalize_amounts_and_recalculate okCfg "YZ" "XZ" "XY" "sell buy sell"
        ⟨4, 2, 2, 0, 0⟩ 1 1 1 [(1, 10)] [(1, 10)] [(1, 10)] = some okRes ∧
    (0 ≤ okRes.x_profit ∧ 0 ≤ okRes.y_profit ∧ 0 ≤ okRes.z_profit ∧
      okCfg.min_profit ≤ okRes.profit_rel) := by
  have hrun : normalize_amounts_and_recalculate okCfg "YZ" "XZ" "XY"
      "sell buy sell" ⟨4, 2, 2, 0, 0⟩ 1 1 1 [(1, 10)] [(1, 10)] [(1, 10)] =
      some okRes := by with_unfolding_all decide
  have hpos : posLadder [((1 : ℚ), (10 : ℚ))] := by
    intro pv hpv
    simp only [List.mem_singleton] at hpv
    subst hpv
    constructor <;> norm_num
  refine ⟨hrun, c2_amended okCfg "YZ" "XZ" "XY" "sell buy sell"
    ⟨4, 2, 2, 0, 0⟩ 1 1 1 [(1, 10)] [(1, 10)] [(1, 10)]
    (Or.inl rfl) (by norm_num [okCfg]) hpos hpos hpos ?_ okRes hrun⟩
  intro s r hr
  cases hr
  exact ⟨by norm_num [okReqs], by norm_num [okReqs]⟩

theorem find_arb_final_arb_none {s1 : ℤ} {f1 : Bool} {s2 : ℤ} {f2 : Bool}
    {fr : FindOut} (h : find_arb_final s1 f1 s2 f2 = some fr) :
    fr.arb = none := by
  unfold find_arb_final at h
  cases h
  rfl

theorem find_arb_second_gate {cfg : DetectorCfg} {t : Triangle}
    {ayz bxz axy : Ladder} {yzS xzS xyS : String} {s1 : ℤ} {f1 : Bool}
    {s2 now : ℤ} {fr : FindOut} {a : Arbitrage}
    (hf : find_arb_second cfg t ayz bxz axy yzS xzS xyS s1 f1 s2 now =
      some fr)
    (ha : fr.arb = some a) :
    a.actions.map MarketAction.action = ["buy", "sell", "buy"] ∧
    ∃ w, runWalkB cfg ayz bxz axy = some w ∧
      cfg.min_depth ≤ w.depth ∧
      cfg.min_age ≤ now - (if s2 = 0 then now else s2) ∧
      (0 < cfg.min_age → s2 ≠ 0) := by
  unfold find_arb_second at hf
  split at hf
  · exact Option.noConfusion hf
  · rename_i wB hwB
    split at hf
    · rw [find_arb_final_arb_none hf] at ha
      exact Option.noConfusion ha
    · rename_i p1 p2 p3 hpr
      split at hf
      · rw [find_arb_final_arb_none hf] at ha
        exact Option.noConfusion ha
      · rename_i nB hnB
        dsimp only at hf
        by_cases hgate : cfg.min_age ≤ now - (if s2 = 0 then now else s2) ∧
            cfg.min_depth ≤ wB.depth
        · rw [if_pos hgate] at hf
          cases hf
          cases ha
          refine ⟨rfl, wB, hwB, hgate.2, hgate.1, ?_⟩
          intro hpos h0
          have h1 := hgate.1
          rw [h0] at h1
          simp only [if_pos rfl, sub_self] at h1
          omega
        · rw [if_neg hgate] at hf
          rw [find_arb_final_arb_none hf] at ha
          exact Option.noConfusion ha

/-- C3: `find_arbitrage_in_triangle` returns an Arbitrage for a cycle
direction only if `now − first_seen ≥ min_age` for that direction's
(updated) stored timestamp and the accumulated ladder-walk depth of this
scan is `≥ min_depth`; in particular, with `min_age > 0`, an opportunity
is never emitted on the very scan that first set its timestamp (the
prior stored timestamp must already be nonzero).  The emitted direction
is read off the action sides (`sell,buy,sell` = direction A;
`buy,sell,buy` = direction B). -/
theorem c3_age_depth_gate
    (cfg : DetectorCfg) (t : Triangle) (validYZ validXZ validXY : Bool)
    (bidsYZ asksYZ bidsXZ asksXZ bidsXY asksXY : Ladder)
    (stSbs stBsb now : ℤ) (fr : FindOut) (a : Arbitrage)
    (hf : find_arbitrage_in_triangle cfg t validYZ validXZ validXY
      bidsYZ asksYZ bidsXZ asksXZ bidsXY asksXY stSbs stBsb now = some fr)
    (ha : fr.arb = some a) :
    (a.actions.map MarketAction.action = ["sell", "buy", "sell"] ∨
     a.actions.map MarketAction.action = ["buy", "sell", "buy"]) ∧
    (a.actions.map MarketAction.action = ["sell", "buy", "sell"] →
      ∃ w, runWalkA cfg bidsYZ asksXZ bidsXY = some w ∧
        cfg.min_depth ≤ w.depth ∧
        cfg.min_age ≤ now - (if stSbs = 0 then now else stSbs) ∧
        (0 < cfg.min_age → stSbs ≠ 0)) ∧
    (a.actions.map MarketAction.action = ["buy", "sell", "buy"] →
      ∃ w, runWalkB cfg asksYZ bidsXZ asksXY = some w ∧
        cfg.min_depth ≤ w.depth ∧
        cfg.min_age ≤ now - (if stBsb = 0 then now else stBsb) ∧
        (0 < cfg.min_age → stBsb ≠ 0)) := by
  unfold find_arbitrage_in_triangle at hf
  split at hf
  · cases hf
    exact Option.noConfusion ha
  · split at hf
    · cases hf
      exact Option.noConfusion ha
    · split at hf
      · exact Option.noConfusion hf
      · rename_i wA hwA
        split at hf
        · obtain ⟨hpat, w, hw, hd, hage, hfs⟩ := find_arb_second_gate hf ha
          refine ⟨Or.inr hpat, fun hcon => ?_, fun _ => ⟨w, hw, hd, hage, hfs⟩⟩
          rw [hcon] at hpat
          exact absurd hpat (by decide)
        · rename_i p1 p2 p3 hpr
          split at hf
          · obtain ⟨hpat, w, hw, hd, hage, hfs⟩ := find_arb_second_gate hf ha
            refine ⟨Or.inr hpat, fun hcon => ?_,
              fun _ => ⟨w, hw, hd, hage, hfs⟩⟩
            rw [hcon] at hpat
            exact absurd hpat (by decide)
          · rename_i nA hnA
            dsimp only at hf
            by_cases hgate : cfg.min_age ≤
                now - (if stSbs = 0 then now else stSbs) ∧
                cfg.min_depth ≤ wA.depth
            · rw [if_pos hgate] at hf
              cases hf
              cases ha
              refine ⟨Or.inl rfl, fun _ => ⟨wA, hwA, hgate.2, hgate.1, ?_⟩,
                fun hcon => by simp at hcon⟩
              intro hpos h0
              have h1 := hgate.1
              rw [h0] at h1
              simp only [if_pos rfl, sub_self] at h1
              omega
            · rw [if_neg hgate] at hf
              obtain ⟨hpat, w, hw, hd, hage, hfs⟩ := find_arb_second_gate hf ha
              refine ⟨Or.inr hpat, fun hcon => ?_,
                fun _ => ⟨w, hw, hd, hage, hfs⟩⟩
              rw [hcon] at hpat
              exact absurd hpat (by decide)

/-- C3 (witness): at the concrete profitable scan with `min_age = 0` and
`min_depth = 0` the gate conditions hold and direction A is emitted. -/
theorem c3_age_depth_gate_witness :
    find_arbitrage_in_triangle okCfg (("Y", "Z"), ("X", "Z"), ("X", "Y"))
      true true true [(2, 10)] [(3, 10)] [(1, 10)] [(1, 10)] [(1, 10)]
      [(2, 10)] 0 7 5 = some c4fr ∧
    ((c4arbA.actions.map MarketAction.action = ["sell", "buy", "sell"] ∨
      c4arbA.actions.map MarketAction.action = ["buy", "sell", "buy"]) ∧
     (c4arbA.actions.map MarketAction.action = ["sell", "buy", "sell"] →
       ∃ w, runWalkA okCfg [(2, 10)] [(1, 10)] [(1, 10)] = some w ∧
         okCfg.min_depth ≤ w.depth ∧
         okCfg.min_age ≤ 5 - (if (0 : ℤ) = 0 then 5 else 0) ∧
         (0 < okCfg.min_age → (0 : ℤ) ≠ 0)) ∧
     (c4arbA.actions.map MarketAction.action = ["buy", "sell", "buy"] →
       ∃ w, runWalkB okCfg [(3, 10)] [(1, 10)] [(2, 10)] = some w ∧
         okCfg.min_depth ≤ w.depth ∧
         okCfg.min_age ≤ 5 - (if (7 : ℤ) = 0 then 5 else 7) ∧
         (0 < okCfg.min_age → (7 : ℤ) ≠ 0))) := by
  have hrun : find_arbitrage_in_triangle okCfg
      (("Y", "Z"), ("X", "Z"), ("X", "Y")) true true true [(2, 10)]
      [(3, 10)] [(1, 10)] [(1, 10)] [(1, 10)] [(2, 10)] 0 7 5 =
      some c4fr := by with_unfolding_all decide
  exact ⟨hrun, c3_age_depth_gate okCfg (("Y", "Z"), ("X", "Z"), ("X", "Y"))
    true true true [(2, 10)] [(3, 10)] [(1, 10)] [(1, 10)] [(1, 10)]
    [(2, 10)] 0 7 5 c4fr c4arbA hrun rfl⟩

theorem find_arb_final_inv {s1 : ℤ} {f1 : Bool} {s2 : ℤ} {f2 : Bool}
    {fr : FindOut} (h : find_arb_final s1 f1 s2 f2 = some fr) :
    fr.arb = none ∧
    fr.sbs = (if f1 = false ∧ s1 > 0 then 0 else s1) ∧
    fr.bsb = (if f2 = false ∧ s2 > 0 then 0 else s2) ∧
    fr.events = ((if f1 = false ∧ s1 > 0 then ["sell buy sell"] else []) ++
      (if f2 = false ∧ s2 > 0 then ["buy sell buy"] else [])) := by
  unfold find_arb_final at h
  cases h
  exact ⟨rfl, rfl, rfl, rfl⟩

theorem find_arb_second_inv {cfg : DetectorCfg} {t : Triangle}
    {ayz bxz axy : Ladder} {yzS xzS xyS : String} {s1 : ℤ} {f1 : Bool}
    {s2 now : ℤ} {fr : FindOut}
    (hf : find_arb_second cfg t ayz bxz axy yzS xzS xyS s1 f1 s2 now =
      some fr)
    (harb : fr.arb = none) :
    find_arb_final s1 f1
      (if (scanDirB cfg yzS xzS xyS ayz bxz axy).isSome
        then (if s2 = 0 then now else s2) else s2)
      (scanDirB cfg yzS xzS xyS ayz bxz axy).isSome = some fr := by
  unfold find_arb_second at hf
  split at hf
  · exact Option.noConfusion hf
  · rename_i wB hwB
    have hscan : scanDirB cfg yzS xzS xyS ayz bxz axy =
        normFromWalkB cfg yzS xzS xyS ayz bxz axy wB := by
      unfold scanDirB
      rw [hwB]
    rw [hscan]
    split at hf
    · rename_i hpr
      have hnone : normFromWalkB cfg yzS xzS xyS ayz bxz axy wB = none := by
        unfold normFromWalkB
        rw [hpr]
      rw [hnone]
      simpa using hf
    · rename_i p1 p2 p3 hpr
      split at hf
      · rename_i hnarB
        have hnone : normFromWalkB cfg yzS xzS xyS ayz bxz axy wB = none := by
          unfold normFromWalkB
          rw [hpr]
          exact hnarB
        rw [hnone]
        simpa using hf
      · rename_i nB hnarB
        have hsome : normFromWalkB cfg yzS xzS xyS ayz bxz axy wB =
            some nB := by
          unfold normFromWalkB
          rw [hpr]
          exact hnarB
        rw [hsome]
        dsimp only at hf
        by_cases hgate : cfg.min_age ≤ now - (if s2 = 0 then now else s2) ∧
            cfg.min_depth ≤ wB.depth
        · rw [if_pos hgate] at hf
          cases hf
          exact absurd harb (by simp)
        · rw [if_neg hgate] at hf
          simpa using hf

theorem find_arb_inv {cfg : DetectorCfg} {t : Triangle}
    {bidsYZ asksYZ bidsXZ asksXZ bidsXY asksXY : Ladder}
    {s1 s2 now : ℤ} {fr : FindOut}
    (hne1 : bidsYZ ≠ []) (hne2 : bidsXZ ≠ []) (hne3 : bidsXY ≠ [])
    (hne4 : asksYZ ≠ []) (hne5 : asksXZ ≠ []) (hne6 : asksXY ≠ [])
    (hf : find_arbitrage_in_triangle cfg t true true true
      bidsYZ asksYZ bidsXZ asksXZ bidsXY asksXY s1 s2 now = some fr)
    (harb : fr.arb = none) :
    find_arb_final
      (if (scanDirA cfg (make_symbol t.1.1 t.1.2)
          (make_symbol t.2.1.1 t.2.1.2) (make_symbol t.2.2.1 t.2.2.2)
          bidsYZ asksXZ bidsXY).isSome
        then (if s1 = 0 then now else s1) else s1)
      (scanDirA cfg (make_symbol t.1.1 t.1.2) (make_symbol t.2.1.1 t.2.1.2)
        (make_symbol t.2.2.1 t.2.2.2) bidsYZ asksXZ bidsXY).isSome
      (if (scanDirB cfg (make_symbol t.1.1 t.1.2)
          (make_symbol t.2.1.1 t.2.1.2) (make_symbol t.2.2.1 t.2.2.2)
          asksYZ bidsXZ asksXY).isSome
        then (if s2 = 0 then now else s2) else s2)
      (scanDirB cfg (make_symbol t.1.1 t.1.2) (make_symbol t.2.1.1 t.2.1.2)
        (make_symbol t.2.2.1 t.2.2.2) asksYZ bidsXZ asksXY).isSome =
      some fr := by
  unfold find_arbitrage_in_triangle at hf
  rw [if_neg (by decide)] at hf
  rw [if_neg (by
    rintro (h | h | h | h | h | h)
    · exact hne1 h
    · exact hne2 h
    · exact hne3 h
    · exact hne4 h
    · exact hne5 h
    · exact hne6 h)] at hf
  split at hf
  · exact Option.noConfusion hf
  · rename_i wA hwA
    have hscan : scanDirA cfg (make_symbol t.1.1 t.1.2)
        (make_symbol t.2.1.1 t.2.1.2) (make_symbol t.2.2.1 t.2.2.2)
        bidsYZ asksXZ bidsXY =
        normFromWalkA cfg (make_symbol t.1.1 t.1.2)
          (make_symbol t.2.1.1 t.2.1.2) (make_symbol t.2.2.1 t.2.2.2)
          bidsYZ asksXZ bidsXY wA := by
      unfold scanDirA
      rw [hwA]
    rw [hscan]
    split at hf
    · rename_i hpr
      have hnone : normFromWalkA cfg (make_symbol t.1.1 t.1.2)
          (make_symbol t.2.1.1 t.2.1.2) (make_symbol t.2.2.1 t.2.2.2)
          bidsYZ asksXZ bidsXY wA = none := by
        unfold normFromWalkA
        rw [hpr]
      rw [hnone]
      simpa using find_arb_second_inv hf harb
    · rename_i p1 p2 p3 hpr
      split at hf
      · rename_i hnarA
        have hnone : normFromWalkA cfg (make_symbol t.1.1 t.1.2)
            (make_symbol t.2.1.1 t.2.1.2) (make_symbol t.2.2.1 t.2.2.2)
            bidsYZ asksXZ bidsXY wA = none := by
          unfold normFromWalkA
          rw [hpr]
          exact hnarA
        rw [hnone]
        simpa using find_arb_second_inv hf harb
      · rename_i nA hnarA
        have hsome : normFromWalkA cfg (make_symbol t.1.1 t.1.2)
            (make_symbol t.2.1.1 t.2.1.2) (make_symbol t.2.2.1 t.2.2.2)
            bidsYZ asksXZ bidsXY wA = some nA := by
          unfold normFromWalkA
          rw [hpr]
          exact hnarA
        rw [hsome]
        dsimp only at hf
        by_cases hgate : cfg.min_age ≤ now - (if s1 = 0 then now else s1) ∧
            cfg.min_depth ≤ wA.depth
        · rw [if_pos hgate] at hf
          cases hf
          exact absurd harb (by simp)
        · rw [if_neg hgate] at hf
          simpa using find_arb_second_inv hf harb

theorem mem_if_append_left {c1 c2 : Prop} [Decidable c1] [Decidable c2]
    {x y : String} (hxy : x ≠ y) :
    (x ∈ (if c1 then [x] else []) ++ (if c2 then [y] else [])) ↔ c1 := by
  by_cases h1 : c1 <;> by_cases h2 : c2 <;> simp [h1, h2, hxy]

theorem mem_if_append_right {c1 c2 : Prop} [Decidable c1] [Decidable c2]
    {x y : String} (hxy : y ≠ x) :
    (y ∈ (if c1 then [x] else []) ++ (if c2 then [y] else [])) ↔ c2 := by
  by_cases h1 : c1 <;> by_cases h2 : c2 <;> simp [h1, h2, hxy]

/-- C4 (amended).  After every completed `find_arbitrage_in_triangle`
call that returns no Arbitrage — so both directions were fully scanned —
on valid, non-empty books, with a positive clock and nonnegative stored
timestamps: each direction's stored first-seen timestamp is zero iff the
direction's scan (walk + normalisation) produced no opportunity this
scan, and an `arbitrage_disappeared` event is published for a direction
iff its timestamp transitioned from nonzero to zero. -/
theorem c4_amended
    (cfg : DetectorCfg) (t : Triangle)
    (bidsYZ asksYZ bidsXZ asksXZ bidsXY asksXY : Ladder)
    (stSbs stBsb now : ℤ) (fr : FindOut)
    (hne1 : bidsYZ ≠ []) (hne2 : bidsXZ ≠ []) (hne3 : bidsXY ≠ [])
    (hne4 : asksYZ ≠ []) (hne5 : asksXZ ≠ []) (hne6 : asksXY ≠ [])
    (hnow : 0 < now) (hs1 : 0 ≤ stSbs) (hs2 : 0 ≤ stBsb)
    (hf : find_arbitrage_in_triangle cfg t true true true
      bidsYZ asksYZ bidsXZ asksXZ bidsXY asksXY stSbs stBsb now = some fr)
    (harb : fr.arb = none) :
    (fr.sbs = 0 ↔ scanDirA cfg (make_symbol t.1.1 t.1.2)
      (make_symbol t.2.1.1 t.2.1.2) (make_symbol t.2.2.1 t.2.2.2)
      bidsYZ asksXZ bidsXY = none) ∧
    (fr.bsb = 0 ↔ scanDirB cfg (make_symbol t.1.1 t.1.2)
      (make_symbol t.2.1.1 t.2.1.2) (make_symbol t.2.2.1 t.2.2.2)
      asksYZ bidsXZ asksXY = none) ∧
    (("sell buy sell" ∈ fr.events) ↔ (stSbs ≠ 0 ∧ fr.sbs = 0)) ∧
    (("buy sell buy" ∈ fr.events) ↔ (stBsb ≠ 0 ∧ fr.bsb = 0)) := by
  have hfin := find_arb_inv hne1 hne2 hne3 hne4 hne5 hne6 hf harb
  obtain ⟨-, hsbs, hbsb, hev⟩ := find_arb_final_inv hfin
  have hiff1 : fr.sbs = 0 ↔ scanDirA cfg (make_symbol t.1.1 t.1.2)
      (make_symbol t.2.1.1 t.2.1.2) (make_symbol t.2.2.1 t.2.2.2)
      bidsYZ asksXZ bidsXY = none := by
    cases hA : scanDirA cfg (make_symbol t.1.1 t.1.2)
        (make_symbol t.2.1.1 t.2.1.2) (make_symbol t.2.2.1 t.2.2.2)
        bidsYZ asksXZ bidsXY with
    | none =>
      rw [hA] at hsbs
      simp only [Option.isSome_none, Bool.false_eq_true, if_false,
        eq_self_iff_true, true_and] at hsbs
      constructor
      · exact fun _ => rfl
      · intro _
        rw [hsbs]
        split
        · rfl
        · omega
    | some v =>
      rw [hA] at hsbs
      simp only [Option.isSome_some, Bool.true_eq_false, false_and,
        if_false, eq_self_iff_true, if_true] at hsbs
      refine iff_of_false ?_ (by simp)
      rw [hsbs]
      split
      · omega
      · omega
  have hiff2 : fr.bsb = 0 ↔ scanDirB cfg (make_symbol t.1.1 t.1.2)
      (make_symbol t.2.1.1 t.2.1.2) (make_symbol t.2.2.1 t.2.2.2)
      asksYZ bidsXZ asksXY = none := by
    cases hB : scanDirB cfg (make_symbol t.1.1 t.1.2)
        (make_symbol t.2.1.1 t.2.1.2) (make_symbol t.2.2.1 t.2.2.2)
        asksYZ bidsXZ asksXY with
    | none =>
      rw [hB] at hbsb
      simp only [Option.isSome_none, Bool.false_eq_true, if_false,
        eq_self_iff_true, true_and] at hbsb
      constructor
      · exact fun _ => rfl
      · intro _
        rw [hbsb]
        split
        · rfl
        · omega
    | some v =>
      rw [hB] at hbsb
      simp only [Option.isSome_some, Bool.true_eq_false, false_and,
        if_false, eq_self_iff_true, if_true] at hbsb
      refine iff_of_false ?_ (by simp)
      rw [hbsb]
      split
      · omega
      · omega
  refine ⟨hiff1, hiff2, ?_, ?_⟩
  · rw [hev, mem_if_append_left (by decide)]
    cases hA : scanDirA cfg (make_symbol t.1.1 t.1.2)
        (make_symbol t.2.1.1 t.2.1.2) (make_symbol t.2.2.1 t.2.2.2)
        bidsYZ asksXZ bidsXY with
    | none =>
      rw [hA] at hsbs
      simp only [Option.isSome_none, Bool.false_eq_true, if_false,
        eq_self_iff_true, true_and] at hsbs ⊢
      constructor
      · intro hgt
        refine ⟨by omega, ?_⟩
        rw [hsbs]
        split
        · rfl
        · omega
      · rintro ⟨hne0, -⟩
        omega
    | some v =>
      rw [hA] at hsbs
      simp only [Option.isSome_some, Bool.true_eq_false, false_and,
        if_false, eq_self_iff_true, if_true] at hsbs ⊢
      refine iff_of_false (by simp) ?_
      rintro ⟨hne0, h0⟩
      rw [hsbs] at h0
      split at h0
      · omega
      · omega
  · rw [hev, mem_if_append_right (by decide)]
    cases hB : scanDirB cfg (make_symbol t.1.1 t.1.2)
        (make_symbol t.2.1.1 t.2.1.2) (make_symbol t.2.2.1 t.2.2.2)
        asksYZ bidsXZ asksXY with
    | none =>
      rw [hB] at hbsb
      simp only [Option.isSome_none, Bool.false_eq_true, if_false,
        eq_self_iff_true, true_and] at hbsb ⊢
      constructor
      · intro hgt
        refine ⟨by omega, ?_⟩
        rw [hbsb]
        split
        · rfl
        · omega
      · rintro ⟨hne0, -⟩
        omega
    | some v =>
      rw [hB] at hbsb
      simp only [Option.isSome_some, Bool.true_eq_false, false_and,
        if_false, eq_self_iff_true, if_true] at hbsb ⊢
      refine iff_of_false (by simp) ?_
      rintro ⟨hne0, h0⟩
      rw [hbsb] at h0
      split at h0
      · omega
      · omega

/-- C4 (counterexample).  The claim "after every completed call, for
each direction the stored first-seen timestamp is zero iff that
direction was not profitable on that last scan (with a disappearance
event on each nonzero→zero transition)" fails on the code: when
direction A emits an Arbitrage, the function returns early and never
reaches the reset block, so direction B's stale timestamp `7` survives
even though B is not profitable on this scan (`scanDirB = none`), and no
`arbitrage_disappeared` event is published. -/
theorem c4_counterexample :
    find_arbitrage_in_triangle okCfg (("Y", "Z"), ("X", "Z"), ("X", "Y"))
      true true true [(2, 10)] [(3, 10)] [(1, 10)] [(1, 10)] [(1, 10)]
      [(2, 10)] 0 7 5 = some c4fr ∧
    scanDirB okCfg "YZ" "XZ" "XY" [(3, 10)] [(1, 10)] [(2, 10)] = none ∧
    c4fr.bsb = 7 ∧
    c4fr.events = [] :=
  ⟨by with_unfolding_all decide, by with_unfolding_all decide, rfl, rfl⟩

/-- C4 (witness): a completed scan that returns no Arbitrage on valid
non-empty books; the stale `sell buy sell` timestamp `3` is reset with a
disappearance event, the `buy sell buy` one stays zero, matching the
amended claim's conclusions. -/
theorem c4_amended_witness :
    find_arbitrage_in_triangle okCfg (("Y", "Z"), ("X", "Z"), ("X", "Y"))
      true true true [(1, 10)] [(3, 10)] [(1, 10)] [(2, 10)] [(1, 10)]
      [(2, 10)] 3 0 5 = some c4frW ∧
    ((c4frW.sbs = 0 ↔ scanDirA okCfg "YZ" "XZ" "XY" [(1, 10)] [(2, 10)]
        [(1, 10)] = none) ∧
     (c4frW.bsb = 0 ↔ scanDirB okCfg "YZ" "XZ" "XY" [(3, 10)] [(1, 10)]
        [(2, 10)] = none) ∧
     (("sell buy sell" ∈ c4frW.events) ↔ ((3 : ℤ) ≠ 0 ∧ c4frW.sbs = 0)) ∧
     (("buy sell buy" ∈ c4frW.events) ↔ ((0 : ℤ) ≠ 0 ∧ c4frW.bsb = 0))) := by
  have hrun : find_arbitrage_in_triangle okCfg
      (("Y", "Z"), ("X", "Z"), ("X", "Y")) true true true [(1, 10)]
      [(3, 10)] [(1, 10)] [(2, 10)] [(1, 10)] [(2, 10)] 3 0 5 =
      some c4frW := by with_unfolding_all decide
  exact ⟨hrun, c4_amended okCfg (("Y", "Z"), ("X", "Z"), ("X", "Y"))
    [(1, 10)] [(3, 10)] [(1, 10)] [(2, 10)] [(1, 10)] [(2, 10)] 3 0 5 c4frW
    (by decide) (by decide) (by decide) (by decide) (by decide) (by decide)
    (by norm_num) (by norm_num) (by norm_num) hrun rfl⟩

/- ------------------------------------------------------------------ -/
/- C5: planner step shapes and the all-available parallel plan.        -/
/- ------------------------------------------------------------------ -/

/-- The head of a non-empty list (with default) is a member. -/
theorem headI_mem_of_ne_nil {l : List ℚ} (h : l ≠ []) : l.headI ∈ l := by
  cases l with
  | nil => exact absurd rfl h
  | cons a t => exact List.mem_cons_self a t

/-- `sequence_actions` only ever returns three actions. -/
theorem sequence_actions_len {raw acts : List Action}
    (h : sequence_actions raw = some acts) : acts.length = 3 := by
  rcases raw with _ | ⟨a0, _ | ⟨a1, _ | ⟨a2, _ | ⟨a3, rest⟩⟩⟩⟩
  · exact Option.noConfusion h
  · exact Option.noConfusion h
  · exact Option.noConfusion h
  · simp only [sequence_actions] at h
    split at h
    · injection h with h2
      subst h2
      rfl
    · split at h
      · injection h with h2
        subst h2
        rfl
      · exact Option.noConfusion h
  · exact Option.noConfusion h

/-- The quantity-update loop preserves the number of actions. -/
theorem update_quantities_len (red : List MarketAction) :
    ∀ {acts acts2 : List Action},
      update_quantities red acts = some acts2 →
      acts2.length = acts.length := by
  intro acts
  induction acts with
  | nil =>
    intro acts2 h
    simp only [update_quantities, Option.some.injEq] at h
    subst h
    rfl
  | cons a rest ih =>
    intro acts2 h
    simp only [update_quantities] at h
    split at h
    · exact Option.noConfusion h
    · split at h
      · exact Option.noConfusion h
      · rename_i ra hfind rest2 hrest
        injection h with h2
        subst h2
        simp [ih hrest]

/-- `_reduce_actions_by_proportion` preserves the number of actions. -/
theorem reduce_actions_len {cfg : DetectorCfg} {arbQ : Option Arbitrage}
    {acts : List Action} {p : ℚ} {red2 : List Action}
    (h : reduce_actions_by_proportion cfg arbQ acts p = some red2) :
    red2.length = acts.length := by
  unfold reduce_actions_by_proportion at h
  split at h
  · split at h
    · exact Option.noConfusion h
    · split at h
      · exact Option.noConfusion h
      · exact update_quantities_len _ h
  · injection h with h2
    subst h2
    rfl

/-- C5: every plan returned by `_get_executable_action_set` has step
shape `[3]`, `[2, 1]` or `[1, 1, 1]` — always exactly three legs in
total; and when every leg's balance/amount proportion is at least 1
(a proportion of exactly 1 counts as available, no reduction is
performed), the planner returns the single parallel step holding all
three sequenced legs unchanged. -/
theorem c5_planner :
    (∀ (cfg : DetectorCfg) (arbQ : Option Arbitrage)
        (balance : String → ℚ) (mpa : ℕ) (raw : List Action)
        (s : ActionSet),
      get_executable_action_set cfg arbQ balance mpa raw = some s →
      s.steps.map List.length = [3] ∨
        s.steps.map List.length = [2, 1] ∨
        s.steps.map List.length = [1, 1, 1]) ∧
    (∀ (cfg : DetectorCfg) (arbQ : Option Arbitrage)
        (balance : String → ℚ) (mpa : ℕ) (raw acts : List Action),
      sequence_actions raw = some acts →
      (∀ a ∈ acts, 1 ≤ balanceProp balance a) →
      get_executable_action_set cfg arbQ balance mpa raw =
        some ⟨[acts]⟩) := by
  constructor
  · intro cfg arbQ balance mpa raw s h
    unfold get_executable_action_set at h
    split at h
    · exact Option.noConfusion h
    · rename_i acts hseq
      split at h
      · exact Option.noConfusion h
      · split at h
        · rename_i red hred
          injection h with h2
          subst h2
          left
          show [red.length] = [3]
          rw [reduce_actions_len hred, sequence_actions_len hseq]
        · split at h
          · exact Option.noConfusion h
          · split at h
            · injection h with h2
              subst h2
              right; left; rfl
            · split at h
              · exact Option.noConfusion h
              · split at h
                · injection h with h2
                  subst h2
                  right; right; rfl
                · exact Option.noConfusion h
  · intro cfg arbQ balance mpa raw acts hseq hprops
    have hne : sortedProps (acts.map (balanceProp balance)) ≠ [] := by
      intro hnil
      have h3 := congrArg List.length hnil
      simp only [sortedProps, List.length_mergeSort, List.length_map,
        sequence_actions_len hseq, List.length_nil] at h3
      exact absurd h3 (by decide)
    obtain ⟨a, ha, hav⟩ :
        ∃ a ∈ acts, balanceProp balance a =
          (sortedProps (acts.map (balanceProp balance))).headI := by
      have h4 := headI_mem_of_ne_nil hne
      rw [sortedProps, List.mem_mergeSort, List.mem_map] at h4
      exact h4
    have h1le : (1 : ℚ) ≤
        (sortedProps (acts.map (balanceProp balance))).headI := by
      rw [← hav]
      exact hprops a ha
    have hany : (acts.any fun x => decide (spendAmount x = 0)) = false := by
      rw [List.any_eq_false]
      intro x hx
      simp only [decide_eq_true_eq]
      intro h0
      have h1 := hprops x hx
      rw [balanceProp, h0, div_zero] at h1
      exact absurd h1 (by norm_num)
    have hred : reduce_actions_by_proportion cfg arbQ acts
        (sortedProps (acts.map (balanceProp balance))).headI =
          some acts := by
      unfold reduce_actions_by_proportion
      rw [if_neg (not_lt.mpr h1le)]
    unfold get_executable_action_set
    rw [hseq]
    dsimp only
    simp only [hany, Bool.false_eq_true, if_false]
    rw [hred]

/-- C5 witness: a concrete three-leg cycle with ample balances; the
planner returns the single parallel step with the three legs. -/
theorem c5_planner_witness :
    sequence_actions [c5a0, c5a1, c5a2] = some [c5a0, c5a1, c5a2] ∧
    (∀ a ∈ [c5a0, c5a1, c5a2],
      1 ≤ balanceProp (fun _ => 100) a) ∧
    get_executable_action_set okCfg none (fun _ => 100) 1
        [c5a0, c5a1, c5a2] = some ⟨[[c5a0, c5a1, c5a2]]⟩ :=
  ⟨by with_unfolding_all decide, by with_unfolding_all decide,
   c5_planner.2 okCfg none (fun _ => 100) 1 [c5a0, c5a1, c5a2]
     [c5a0, c5a1, c5a2] (by with_unfolding_all decide)
     (by with_unfolding_all decide)⟩

/- ------------------------------------------------------------------ -/
/- C6: one-step plan, one of two orders filled.                        -/
/- ------------------------------------------------------------------ -/

/-- C6 counterexample: in a one-step plan of two actions where the
first order is completely filled and the second is filled for zero, the
executor cancels the unfilled order and labels the outcome
"reverted 1", but it also schedules a market revert of the FILLED first
leg — contradicting "does not revert the filled leg". -/
theorem c6_counterexample :
    fill_branch (1/1000) (fun _ => 1/1000) 1 0 c6actA
        [c6actA, c6actB] [c6resA, c6resB] [0, 0] [] =
      ("reverted 1", [1],
       [⟨("ETH", "BTC"), "BUY", 999/1000, 0, "MARKET"⟩]) := by
  set_option maxRecDepth 8000 in with_unfolding_all decide

/-- C6 (corrected): in a one-step plan of exactly two actions where the
first order is FILLED, the second is NEW with a zero cancel-time fill:
the unfilled order is cancelled and the label is "reverted 1" (as
claimed), but the emergency list is exactly the revert of the filled
first leg — the filled leg is reverted. -/
theorem c6_amended (trade_fee : ℚ) (stepOf : String → ℚ)
    (s1 a b : Action) (ra rb : OrderRes) (c0 : ℚ)
    (hra : ra.status = "FILLED") (hrb : rb.status = "NEW") :
    fill_branch trade_fee stepOf 1 0 s1 [a, b] [ra, rb] [c0, 0] [] =
      ("reverted 1", [1], [revert_action trade_fee stepOf a]) := by
  obtain ⟨rs, roid, rsd, rp, rao, rae, rst⟩ := ra
  obtain ⟨rs2, roid2, rsd2, rp2, rao2, rae2, rst2⟩ := rb
  dsimp only at hra hrb
  subst hra
  subst hrb
  with_unfolding_all rfl

/-- C6 witness for the corrected statement at the concrete orders. -/
theorem c6_amended_witness :
    c6resA.status = "FILLED" ∧ c6resB.status = "NEW" ∧
    fill_branch (1/1000) (fun _ => 1/1000) 1 0 c6actA
        [c6actA, c6actB] [c6resA, c6resB] [0, 0] [] =
      ("reverted 1", [1],
       [revert_action (1/1000) (fun _ => 1/1000) c6actA]) :=
  ⟨rfl, rfl,
   c6_amended (1/1000) (fun _ => 1/1000) c6actA c6actA c6actB
     c6resA c6resB 0 rfl rfl⟩

end TriArb
